import Mathlib

/-!
# story-stride-sync: verification of the timer / audio-sync core

Shallow embedding of the interval-session timer engine, its display and
progress queries, and the audio synchronization / content-resolution
helpers of the story-stride-sync repository, together with proofs about
the specification's claims.

Sources embedded (TypeScript):
* `src/types/index.ts` — `IntervalItem`, `WorkoutSet`, `Timer`,
  `calculateSessionDuration`;
* `src/hooks/timer/useTimerNavigation.ts` — `getCurrentInterval`,
  `moveToNextInterval`;
* `src/hooks/timer/useTimerDisplay.ts` — `formatTimeRemaining`,
  `getProgress`, `getSessionProgress`, `useTimerControls` (the
  `setInterval` tick callback, `startTimer`, `pauseTimer`, `resumeTimer`,
  `resetTimer`);
* `src/unnamed/part_008` (`useStoryTimer`) — timer initialization effect
  (identical body to `resetTimer`);
* `src/hooks/useAudioPlayback.ts` — the timer-synchronization effect;
* `src/hooks/useAudioContent.ts` — `getUrlForSet`;
* `src/hooks/useAudioPlayer.ts` — `getCurrentAudioUrl`;
* `src/services/audioUtils.ts` — `getSilentAudioUrl`.

Modelling conventions: JavaScript integer-valued numbers are embedded as
`Nat` where the source keeps them non-negative by construction, and index
comparisons that can involve `-1` in the source (such as
`setIndex < currentSetIndex - 1`) are carried out in `Int` to preserve the
source's semantics.  Percentages computed with `/` and `* 100` are
embedded in `ℚ`; all per-claim facts proved about them (values `0`, `50`,
`100`, order, bounds) are exact in both `ℚ` and IEEE doubles for the
integer inputs involved.  Wall-clock fields of the source `Timer`
(`sessionId : string`, `startTime`/`endTime : Date | null`) are not read
by any of the embedded computations and are omitted from the state record.
-/

set_option autoImplicit false
set_option maxRecDepth 4000

namespace StoryStride

/-- One exercise bout, from `IntervalItem` in `src/types/index.ts`
(`id` and `label` are display-only and omitted). -/
structure IntervalItem where
  duration : Nat
  pauseAfter : Nat
  deriving Repr, DecidableEq

/-- A workout set, from `WorkoutSet` in `src/types/index.ts`
(`id` omitted). -/
structure WorkoutSet where
  intervals : List IntervalItem
  restAfter : Nat
  deriving Repr, DecidableEq

/-- The session object, from `StorySession` in `src/types/index.ts`.
Only the `sets` field is read by the timer and progress code; the story
and audio payload fields are opaque to everything embedded here and are
omitted. -/
structure StorySession where
  sets : List WorkoutSet
  deriving Repr, DecidableEq

/-- The engine state, from `Timer` in `src/types/index.ts`.
`sessionId`, `startTime` and `endTime` are never read by the embedded
computations and are omitted. -/
structure Timer where
  currentSetIndex : Nat
  currentIntervalIndex : Nat
  isRunning : Bool
  isPaused : Bool
  timeRemaining : Nat
  isInPause : Bool
  pauseTimeRemaining : Nat
  isInRest : Bool
  restTimeRemaining : Nat
  deriving Repr, DecidableEq

/-- `calculateSessionDuration` from `src/types/index.ts`: total of every
interval duration, every `pauseAfter` and every set's `restAfter`. -/
def calculateSessionDuration (sets : List WorkoutSet) : Nat :=
  sets.foldl (fun total s =>
    total + s.intervals.foldl (fun sum iv => sum + iv.duration + iv.pauseAfter) 0
      + s.restAfter) 0

/-- `getCurrentInterval` from `src/hooks/timer/useTimerNavigation.ts`:
the interval addressed by the timer's coordinates, or `none` when either
index is out of range (the source returns `null`). -/
def getCurrentInterval (sets : List WorkoutSet) (t : Timer) : Option IntervalItem :=
  match sets.get? t.currentSetIndex with
  | none => none
  | some s => s.intervals.get? t.currentIntervalIndex

/-- `moveToNextInterval` from `src/hooks/timer/useTimerNavigation.ts`.
The source reads `session.sets[timer.currentSetIndex]` unconditionally;
`none` here models the states in which that read has no valid result
(never reached from states whose coordinates address a valid interval).
The `- 1` in both guards is on JavaScript numbers; for the list lengths
involved (`≥ 1` whenever the `none` branches are not taken) `Nat`
subtraction agrees with it. -/
def moveToNextInterval (sets : List WorkoutSet) (t : Timer) : Option Timer :=
  match sets.get? t.currentSetIndex with
  | none => none
  | some currentSet =>
    if t.currentIntervalIndex < currentSet.intervals.length - 1 then
      match currentSet.intervals.get? (t.currentIntervalIndex + 1) with
      | none => none
      | some nextInterval =>
        some { t with
          currentIntervalIndex := t.currentIntervalIndex + 1
          timeRemaining := nextInterval.duration
          isInPause := false
          pauseTimeRemaining := nextInterval.pauseAfter }
    else if t.currentSetIndex < sets.length - 1 then
      match sets.get? (t.currentSetIndex + 1) with
      | none => none
      | some nextSet =>
        match nextSet.intervals.get? 0 with
        | none => none
        | some firstOfNext =>
          some { t with
            currentSetIndex := t.currentSetIndex + 1
            currentIntervalIndex := 0
            timeRemaining := firstOfNext.duration
            isInPause := false
            pauseTimeRemaining := firstOfNext.pauseAfter
            isInRest := decide (0 < currentSet.restAfter)
            restTimeRemaining := currentSet.restAfter }
    else
      some { t with isRunning := false, timeRemaining := 0 }

/-- The once-per-second tick callback installed by `startTimer` in
`src/hooks/timer/useTimerDisplay.ts` (`useTimerControls`; the identical
callback also appears in `src/unnamed/part_008`).  `Math.max(0, x - 1)`
on a non-negative integer is `Nat` subtraction.  When
`moveToNextInterval` yields `none` the source falls through to the
plain-decrement update, exactly as embedded. -/
def tick (sets : List WorkoutSet) (t : Timer) : Timer :=
  if !t.isRunning || t.isPaused then t
  else if t.isInRest then
    let newRestTimeRemaining := t.restTimeRemaining - 1
    if newRestTimeRemaining = 0 then
      { t with isInRest := false, restTimeRemaining := 0 }
    else
      { t with restTimeRemaining := newRestTimeRemaining }
  else if t.isInPause then
    let newPauseTimeRemaining := t.pauseTimeRemaining - 1
    if newPauseTimeRemaining = 0 then
      match moveToNextInterval sets t with
      | some nextTimer => nextTimer
      | none => { t with pauseTimeRemaining := newPauseTimeRemaining }
    else
      { t with pauseTimeRemaining := newPauseTimeRemaining }
  else
    let newTimeRemaining := t.timeRemaining - 1
    if newTimeRemaining = 0 then
      match getCurrentInterval sets t with
      | some currentInterval =>
        if 0 < currentInterval.pauseAfter then
          { t with
            timeRemaining := 0
            isInPause := true
            pauseTimeRemaining := currentInterval.pauseAfter }
        else
          match moveToNextInterval sets t with
          | some nextTimer => nextTimer
          | none => { t with timeRemaining := newTimeRemaining }
      | none =>
        match moveToNextInterval sets t with
        | some nextTimer => nextTimer
        | none => { t with timeRemaining := newTimeRemaining }
    else
      { t with timeRemaining := newTimeRemaining }

/-- Iterated ticks: the state after `k` seconds of the driver firing. -/
def tickIter (sets : List WorkoutSet) : Nat → Timer → Timer
  | 0, t => t
  | k + 1, t => tickIter sets k (tick sets t)

/-- The timer built by the initialization effect of `useStoryTimer`
(`src/unnamed/part_008`) and, identically, by `resetTimer` in
`src/hooks/timer/useTimerDisplay.ts`: coordinates `(0,0)`, first
interval's full duration (defaulting to `60` when
`session.sets[0]?.intervals[0]` is undefined), not running. -/
def initTimer (sets : List WorkoutSet) : Timer :=
  let firstInterval := (sets.get? 0).bind (fun s => s.intervals.get? 0)
  { currentSetIndex := 0
    currentIntervalIndex := 0
    isRunning := false
    isPaused := false
    timeRemaining := match firstInterval with
      | some iv => iv.duration
      | none => 60
    isInPause := false
    pauseTimeRemaining := match firstInterval with
      | some iv => iv.pauseAfter
      | none => 0
    isInRest := false
    restTimeRemaining := match sets.get? 0 with
      | some s => s.restAfter
      | none => 0 }

/-- `startTimer` from `useTimerControls`: state update only (the
`setInterval` registration drives `tick`, modelled by `tickIter`).
The source has no already-running guard; it sets the flags
unconditionally. -/
def startTimer (t : Timer) : Timer :=
  { t with isRunning := true, isPaused := false }

/-- `pauseTimer` from `useTimerControls`: no-op unless running and not
yet paused. -/
def pauseTimer (t : Timer) : Timer :=
  if !t.isRunning || t.isPaused then t else { t with isPaused := true }

/-- `resumeTimer` from `useTimerControls`: no-op unless running and
paused. -/
def resumeTimer (t : Timer) : Timer :=
  if !t.isRunning || !t.isPaused then t else { t with isPaused := false }

/-- States reachable from a freshly constructed timer for `sets` through
the control surface and the tick driver.  `resetTimer` rebuilds
`initTimer sets`, so it is covered by `init`. -/
inductive Reachable (sets : List WorkoutSet) : Timer → Prop where
  | init : Reachable sets (initTimer sets)
  | start {t : Timer} : Reachable sets t → Reachable sets (startTimer t)
  | pause {t : Timer} : Reachable sets t → Reachable sets (pauseTimer t)
  | resume {t : Timer} : Reachable sets t → Reachable sets (resumeTimer t)
  | step {t : Timer} : Reachable sets t → Reachable sets (tick sets t)

/-- The spec's terminal "Complete" signal: `running = false` and
`timeRemaining = 0` (spec §3). -/
def isComplete (t : Timer) : Bool :=
  !t.isRunning && t.timeRemaining = 0

/-! ## Display and progress queries -/

/-- Two-digit zero padding: `n.toString().padStart(2, '0')` for a
non-negative integer. -/
def padTwo (n : Nat) : String :=
  if n < 10 then "0" ++ toString n else toString n

/-- `formatTimeRemaining` from `src/hooks/timer/useTimerDisplay.ts`
(`useTimerDisplay`): `"00:00"` for an absent timer, otherwise the active
phase's counter as `MM:SS`, prefixed `Rest: `/`Pause: ` in those
phases. -/
def formatTimeRemaining (timer? : Option Timer) : String :=
  match timer? with
  | none => "00:00"
  | some t =>
    if t.isInRest then
      "Rest: " ++ padTwo (t.restTimeRemaining / 60) ++ ":" ++ padTwo (t.restTimeRemaining % 60)
    else if t.isInPause then
      "Pause: " ++ padTwo (t.pauseTimeRemaining / 60) ++ ":" ++ padTwo (t.pauseTimeRemaining % 60)
    else
      padTwo (t.timeRemaining / 60) ++ ":" ++ padTwo (t.timeRemaining % 60)

/-- `getProgress` from `src/hooks/timer/useTimerDisplay.ts`
(`useTimerProgress`): percent complete of the active phase.  The
source's `sets[Math.max(0, currentSetIndex - 1)]` is `Nat` subtraction
here; its `<= 0` guards on non-negative integers are `= 0`; out-of-range
index reads that make the source return `0` are the `none` matches. -/
def getProgress (timer? : Option Timer) (session? : Option StorySession) : ℚ :=
  match timer?, session? with
  | some t, some sess =>
    if t.isInRest then
      match sess.sets.get? (t.currentSetIndex - 1) with
      | none => 0
      | some prevSet =>
        if prevSet.restAfter = 0 then 0
        else ((prevSet.restAfter : ℚ) - t.restTimeRemaining) / prevSet.restAfter * 100
    else if t.isInPause then
      match sess.sets.get? t.currentSetIndex with
      | none => 0
      | some currentSet =>
        match currentSet.intervals.get? t.currentIntervalIndex with
        | none => 0
        | some currentInterval =>
          if currentInterval.pauseAfter = 0 then 0
          else ((currentInterval.pauseAfter : ℚ) - t.pauseTimeRemaining)
            / currentInterval.pauseAfter * 100
    else
      match sess.sets.get? t.currentSetIndex with
      | none => 0
      | some currentSet =>
        match currentSet.intervals.get? t.currentIntervalIndex with
        | none => 0
        | some currentInterval =>
          if currentInterval.duration = 0 then 0
          else ((currentInterval.duration : ℚ) - t.timeRemaining)
            / currentInterval.duration * 100
  | _, _ => 0

/-- Indexed sum over a list of intervals, used to embed the
`forEach((interval, intervalIndex) => ...)` accumulation of
`getSessionProgress`. -/
def sumIvs (g : Nat → IntervalItem → Int) : Nat → List IntervalItem → Int
  | _, [] => 0
  | i, iv :: rest => g i iv + sumIvs g (i + 1) rest

/-- Indexed sum over a list of sets, used to embed the
`forEach((set, setIndex) => ...)` accumulation of
`getSessionProgress`. -/
def sumSets (f : Nat → WorkoutSet → Int) : Nat → List WorkoutSet → Int
  | _, [] => 0
  | i, s :: rest => f i s + sumSets f (i + 1) rest

/-- The `elapsedDuration` contribution of the interval at coordinates
`(si, ii)` in the `getSessionProgress` loop of
`src/hooks/timer/useTimerDisplay.ts`: full `duration + pauseAfter` for
intervals strictly before the timer's coordinates, the partial formula
at the timer's coordinates, `0` after them. -/
def intervalElapsed (t : Timer) (si ii : Nat) (iv : IntervalItem) : Int :=
  if si < t.currentSetIndex ∨ (si = t.currentSetIndex ∧ ii < t.currentIntervalIndex) then
    (iv.duration : Int) + (iv.pauseAfter : Int)
  else if si = t.currentSetIndex ∧ ii = t.currentIntervalIndex then
    if t.isInPause then
      (iv.duration : Int) + ((iv.pauseAfter : Int) - (t.pauseTimeRemaining : Int))
    else
      (iv.duration : Int) - (t.timeRemaining : Int)
  else 0

/-- The `elapsedDuration` contribution of set `si`'s rest period in the
`getSessionProgress` loop.  The source compares `setIndex` against
`currentSetIndex - 1` with JavaScript number arithmetic, where
`currentSetIndex - 1` can be `-1`; the comparisons are therefore taken
in `Int`. -/
def restElapsed (t : Timer) (si : Nat) (s : WorkoutSet) : Int :=
  if (si : Int) < (t.currentSetIndex : Int) - 1 ∨
      ((si : Int) = (t.currentSetIndex : Int) - 1 ∧ t.isInRest = false) then
    (s.restAfter : Int)
  else if (si : Int) = (t.currentSetIndex : Int) - 1 ∧ t.isInRest = true then
    (s.restAfter : Int) - (t.restTimeRemaining : Int)
  else 0

/-- The `elapsedDuration` accumulator of `getSessionProgress` over the
whole schedule. -/
def sessionElapsed (sets : List WorkoutSet) (t : Timer) : Int :=
  sumSets (fun si s => sumIvs (intervalElapsed t si) 0 s.intervals + restElapsed t si s) 0 sets

/-- `getSessionProgress` from `src/hooks/timer/useTimerDisplay.ts`
(`useTimerProgress`): elapsed schedule time over total schedule time as
a percentage.  The loop's `totalDuration` accumulator sums every
interval's `duration + pauseAfter` plus every set's `restAfter`, i.e.
the same value as `calculateSessionDuration`. -/
def getSessionProgress (timer? : Option Timer) (session? : Option StorySession) : ℚ :=
  match timer?, session? with
  | some t, some sess =>
    let totalDuration := calculateSessionDuration sess.sets
    if 0 < totalDuration then
      ((sessionElapsed sess.sets t : ℚ) / (totalDuration : ℚ)) * 100
    else 0
  | _, _ => 0

/-! ## Audio content resolution and synchronization -/

/-- `getSilentAudioUrl` from `src/services/audioUtils.ts`: the constant
data-URL of the silent placeholder track. -/
def getSilentAudioUrl : String :=
  "data:audio/mp3;base64,SUQzBAAAAAABAFRYWFgAAAASAAADbWFqb3JfYnJhbmQAZGFzaABUWFhYAAAAEQAAA21pbm9yX3ZlcnNpb24AMABUWFhYAAAAHAAAA2NvbXBhdGlibGVfYnJhbmRzAGlzbzZtcDQxAFRTU0UAAAAPAAADTGF2ZjU4Ljc2LjEwMAAAAAAAAAAAAAAA//tAwAAAAAAAAAAAAAAAAAAAAAAASW5mbwAAAA8AAAAeAAAjsAAHBwcHDw8PDw8XFxcXFx8fHx8fJycnJycvLy8vLzc3Nzc3Pz8/Pz9HR0dHR09PT09PV1dXV1dfX19fX2dnZ2dncHBwcHB4eHh4eIAAAAAAAAAAAAAAAAAAAAD/+0DEAAAFZAGAQAAAKAWIMTIAAAIAAAH0SAAALisBRW0AAAgAAA+gAAABAYWx0AAAAElubm9jZW50AAAAAAAAAAAAAAAAAAAAAAAAAAAAAAAAAAAAAAAAAAAAAAAAAAAAAAAAAAAAAAAAAAAAAAAAAAAAAAAAAAAAAAA="

/-- `getUrlForSet` from `src/hooks/useAudioContent.ts`: resolves the
track for a set index against the processed URL list — silent
placeholder when the list is empty, the single element when there is
one, otherwise the element at `min(setIndex, length - 1)`.  The `getD`
and `headD` defaults are unreachable (the indices are in range). -/
def getUrlForSet (processedUrls : List String) (setIndex : Nat) : String :=
  if processedUrls.length = 0 then getSilentAudioUrl
  else if processedUrls.length = 1 then processedUrls.headD getSilentAudioUrl
  else processedUrls.getD (min setIndex (processedUrls.length - 1)) getSilentAudioUrl

/-- The narration source handed to `useAudioPlayer`
(`audioUrl: string | string[] | null`), as a tagged variant. -/
inductive AudioSource where
  | single (url : String)
  | perSet (urls : List String)
  deriving Repr, DecidableEq

/-- `getCurrentAudioUrl` from `src/hooks/useAudioPlayer.ts`: a single
track is returned as-is; a per-set list is indexed at
`min(currentSetIndex, length - 1)`, with JavaScript's `|| null` turning
an undefined read (empty list; for it `Nat` and JS `-1` clamping agree)
or an empty-string entry into `null`. -/
def getCurrentAudioUrl (audioUrl : Option AudioSource) (timer? : Option Timer) :
    Option String :=
  match audioUrl with
  | none => none
  | some (.single u) => some u
  | some (.perSet urls) =>
    match timer? with
    | some t =>
      match urls.get? (min t.currentSetIndex (urls.length - 1)) with
      | some u => if u = "" then none else some u
      | none => none
    | none => none

/-- The playback command issued against the audio element by one
evaluation of a synchronization step. -/
inductive AudioAction where
  | play
  | pause
  | nop
  deriving Repr, DecidableEq

/-- The timer-synchronization effect of `src/hooks/useAudioPlayback.ts`
(both near-duplicate variants have the same decision structure): with no
timer nothing is issued; while running un-paused, `isInPause`/`isInRest`
pause the audio, otherwise `play` is attempted only when no
`audioError` is set (the first variant guards with `if (!audioError)`,
the second with an early `if (audioError) return`); in every other state
the audio is paused. -/
def syncAudioAction (timer? : Option Timer) (audioError : Option String) : AudioAction :=
  match timer? with
  | none => .nop
  | some t =>
    if t.isRunning && !t.isPaused then
      if t.isInPause || t.isInRest then .pause
      else if audioError.isSome then .nop
      else .play
    else .pause

/-! ## Proof devices: schedule validity, tick measure, invariants

Everything from here to the end of the definition section is *not* an
embedding of source code; these are specification-side definitions used
to state and prove properties of the embedded functions above. -/

/-- The data-model invariant of spec §3: a non-empty list of sets, each
with at least one interval; all durations positive (spec: duration
`> 0`). -/
def ValidSchedule (sets : List WorkoutSet) : Prop :=
  sets ≠ [] ∧ ∀ s ∈ sets, s.intervals ≠ [] ∧ ∀ iv ∈ s.intervals, 1 ≤ iv.duration

instance : DecidablePred ValidSchedule := fun _ =>
  inferInstanceAs (Decidable (_ ∧ _))

/-- Ticks consumed by one interval together with its trailing pause. -/
def ivCost (iv : IntervalItem) : Nat :=
  iv.duration + iv.pauseAfter

/-- Total tick cost of a list of intervals. -/
def ivCostSum : List IntervalItem → Nat
  | [] => 0
  | iv :: rest => ivCost iv + ivCostSum rest

/-- Recursive restatement of `calculateSessionDuration`. -/
def sessionTotalRec : List WorkoutSet → Nat
  | [] => 0
  | s :: rest => ivCostSum s.intervals + s.restAfter + sessionTotalRec rest

/-- `restAfter` of the final set (`0` for an empty schedule): the one
rest period the engine never serves, because no set follows it. -/
def lastRestAfter (sets : List WorkoutSet) : Nat :=
  match sets.getLast? with
  | some s => s.restAfter
  | none => 0

/-- `pauseAfter` of the final interval of the final set (`0` when
absent): a trailing pause is served, but its completion tick freezes
the elapsed accounting one second short. -/
def lastPauseAfter (sets : List WorkoutSet) : Nat :=
  match sets.getLast? with
  | none => 0
  | some s =>
    match s.intervals.getLast? with
    | none => 0
    | some iv => iv.pauseAfter

/-- The number of ticks the engine actually takes from start to the
Complete state: every interval duration, every `pauseAfter`, and the
`restAfter` of every set except the last. -/
def scheduledTicks (sets : List WorkoutSet) : Nat :=
  calculateSessionDuration sets - lastRestAfter sets

/-- Tick cost of running a (suffix of a) schedule from the start of its
first set to completion: rests count only between two sets. -/
def tailCost : List WorkoutSet → Nat
  | [] => 0
  | [s] => ivCostSum s.intervals
  | s :: s' :: rest => ivCostSum s.intervals + s.restAfter + tailCost (s' :: rest)

/-- Tick cost of the part of the current set strictly after the
interval the timer points at, plus everything after the current set. -/
def afterIv (sets : List WorkoutSet) (t : Timer) : Nat :=
  match sets.get? t.currentSetIndex with
  | none => 0
  | some s =>
    ivCostSum (s.intervals.drop (t.currentIntervalIndex + 1)) +
      (if t.currentSetIndex + 1 < sets.length then
        s.restAfter + tailCost (sets.drop (t.currentSetIndex + 1))
      else 0)

/-- `pauseAfter` of the interval the timer points at (`0` when out of
range). -/
def currentPauseAfter (sets : List WorkoutSet) (t : Timer) : Nat :=
  match getCurrentInterval sets t with
  | some iv => iv.pauseAfter
  | none => 0

/-- Exact number of ticks separating a state from the Complete state. -/
def stepsLeft (sets : List WorkoutSet) (t : Timer) : Nat :=
  if t.isRunning = false then 0
  else if t.isInRest then
    t.restTimeRemaining + tailCost (sets.drop t.currentSetIndex)
  else if t.isInPause then
    t.pauseTimeRemaining + afterIv sets t
  else
    t.timeRemaining + currentPauseAfter sets t + afterIv sets t

/-- Invariant of the running, un-paused states on the pure tick
trajectory of a valid schedule. -/
structure InvRun (sets : List WorkoutSet) (t : Timer) : Prop where
  running : t.isRunning = true
  notPaused : t.isPaused = false
  hset : t.currentSetIndex < sets.length
  hiv : ∃ iv, getCurrentInterval sets t = some iv
  mutex : ¬(t.isInPause = true ∧ t.isInRest = true)
  active_lb : t.isInPause = false → t.isInRest = false → 1 ≤ t.timeRemaining
  active_ub : t.isInPause = false → t.isInRest = false →
    ∀ iv, getCurrentInterval sets t = some iv → t.timeRemaining ≤ iv.duration
  pause_bounds : t.isInPause = true →
    ∀ iv, getCurrentInterval sets t = some iv →
      1 ≤ t.pauseTimeRemaining ∧ t.pauseTimeRemaining ≤ iv.pauseAfter
  rest_set : t.isInRest = true → 1 ≤ t.currentSetIndex ∧ t.currentIntervalIndex = 0
  rest_bounds : t.isInRest = true →
    ∃ ps, sets.get? (t.currentSetIndex - 1) = some ps ∧
      1 ≤ t.restTimeRemaining ∧ t.restTimeRemaining ≤ ps.restAfter
  rest_staged : t.isInRest = true →
    ∀ iv, getCurrentInterval sets t = some iv → t.timeRemaining = iv.duration

/-- Weak invariant holding on every state reachable through the full
control surface (including re-starting an already completed timer),
for an arbitrary schedule. -/
structure WInv (sets : List WorkoutSet) (t : Timer) : Prop where
  mutex : ¬(t.isInPause = true ∧ t.isInRest = true)
  pauseCfg : t.isInPause = true →
    ∃ iv, getCurrentInterval sets t = some iv ∧ 1 ≤ iv.pauseAfter
  restCfg : t.isInRest = true →
    1 ≤ t.currentSetIndex ∧
      ∃ ps, sets.get? (t.currentSetIndex - 1) = some ps ∧ 1 ≤ ps.restAfter
  doneNoRest : t.isRunning = false → t.isInRest = false

/-- Shape of the state in which a run of a valid schedule terminates. -/
structure CompleteShape (sets : List WorkoutSet) (t : Timer) : Prop where
  notRunning : t.isRunning = false
  timeZero : t.timeRemaining = 0
  noRest : t.isInRest = false
  notPaused : t.isPaused = false
  lastSet : t.currentSetIndex = sets.length - 1
  lastIv : ∀ s, sets.get? t.currentSetIndex = some s →
    t.currentIntervalIndex = s.intervals.length - 1
  pauseFlag : t.isInPause = true →
    ∀ iv, getCurrentInterval sets t = some iv → 1 ≤ iv.pauseAfter

/-- Discrete phase tag of a state (`0` active, `1` pause, `2` rest). -/
def phaseOf (t : Timer) : Nat :=
  if t.isInRest then 2 else if t.isInPause then 1 else 0

/-- One tick stays inside the same phase instance: still running, same
phase tag, same coordinates. -/
def samePhaseStep (t t' : Timer) : Prop :=
  t'.isRunning = true ∧ phaseOf t' = phaseOf t ∧
    t'.currentSetIndex = t.currentSetIndex ∧
    t'.currentIntervalIndex = t.currentIntervalIndex

end StoryStride

namespace StoryStride

/-! ## Basic lemmas about the controls -/

/-- A tick on a paused state is the identity (the callback's guard
returns `prev` unchanged). -/
theorem tick_of_paused (sets : List WorkoutSet) {t : Timer} (h : t.isPaused = true) :
    tick sets t = t := by
  unfold tick
  rw [h]
  simp

/-- A tick on a stopped state is the identity. -/
theorem tick_of_not_running (sets : List WorkoutSet) {t : Timer} (h : t.isRunning = false) :
    tick sets t = t := by
  unfold tick
  rw [h]
  simp

/-- Iterated ticks on a paused state are the identity. -/
theorem tickIter_of_paused (sets : List WorkoutSet) {t : Timer} (h : t.isPaused = true) :
    ∀ k, tickIter sets k t = t
  | 0 => rfl
  | k + 1 => by
    show tickIter sets k (tick sets t) = t
    rw [tick_of_paused sets h, tickIter_of_paused sets h k]

/-- Iterated ticks on a stopped state are the identity. -/
theorem tickIter_of_not_running (sets : List WorkoutSet) {t : Timer}
    (h : t.isRunning = false) : ∀ k, tickIter sets k t = t
  | 0 => rfl
  | k + 1 => by
    show tickIter sets k (tick sets t) = t
    rw [tick_of_not_running sets h, tickIter_of_not_running sets h k]

/-- Splitting an iterated tick run. -/
theorem tickIter_add (sets : List WorkoutSet) (m n : Nat) (t : Timer) :
    tickIter sets (m + n) t = tickIter sets n (tickIter sets m t) := by
  induction m generalizing t with
  | zero => simp [tickIter]
  | succ m ih =>
    rw [Nat.succ_add]
    show tickIter sets (m + n) (tick sets t) = tickIter sets n (tickIter sets m (tick sets t))
    exact ih (tick sets t)

/-! ## Characterization of `moveToNextInterval` -/

/-- Case analysis of a successful `moveToNextInterval`: advance within
the set, advance to the next set (possibly entering rest), or
complete. -/
theorem moveToNextInterval_spec {sets : List WorkoutSet} {t t' : Timer}
    (h : moveToNextInterval sets t = some t') :
    ∃ currentSet, sets.get? t.currentSetIndex = some currentSet ∧
      ((∃ nextIv,
          t.currentIntervalIndex < currentSet.intervals.length - 1 ∧
          currentSet.intervals.get? (t.currentIntervalIndex + 1) = some nextIv ∧
          t' = { t with
            currentIntervalIndex := t.currentIntervalIndex + 1
            timeRemaining := nextIv.duration
            isInPause := false
            pauseTimeRemaining := nextIv.pauseAfter }) ∨
        (∃ nextSet firstIv,
          ¬t.currentIntervalIndex < currentSet.intervals.length - 1 ∧
          t.currentSetIndex < sets.length - 1 ∧
          sets.get? (t.currentSetIndex + 1) = some nextSet ∧
          nextSet.intervals.get? 0 = some firstIv ∧
          t' = { t with
            currentSetIndex := t.currentSetIndex + 1
            currentIntervalIndex := 0
            timeRemaining := firstIv.duration
            isInPause := false
            pauseTimeRemaining := firstIv.pauseAfter
            isInRest := decide (0 < currentSet.restAfter)
            restTimeRemaining := currentSet.restAfter }) ∨
        (¬t.currentIntervalIndex < currentSet.intervals.length - 1 ∧
          ¬t.currentSetIndex < sets.length - 1 ∧
          t' = { t with isRunning := false, timeRemaining := 0 })) := by
  unfold moveToNextInterval at h
  cases hcs : sets.get? t.currentSetIndex with
  | none => rw [hcs] at h; cases h
  | some currentSet =>
    rw [hcs] at h
    refine ⟨currentSet, rfl, ?_⟩
    simp only at h
    by_cases h1 : t.currentIntervalIndex < currentSet.intervals.length - 1
    · rw [if_pos h1] at h
      cases hni : currentSet.intervals.get? (t.currentIntervalIndex + 1) with
      | none => rw [hni] at h; cases h
      | some nextIv =>
        rw [hni] at h
        exact Or.inl ⟨nextIv, h1, rfl, (Option.some.inj h).symm⟩
    · rw [if_neg h1] at h
      by_cases h2 : t.currentSetIndex < sets.length - 1
      · rw [if_pos h2] at h
        cases hns : sets.get? (t.currentSetIndex + 1) with
        | none => rw [hns] at h; cases h
        | some nextSet =>
          rw [hns] at h
          simp only at h
          cases hfi : nextSet.intervals.get? 0 with
          | none => rw [hfi] at h; cases h
          | some firstIv =>
            rw [hfi] at h
            exact Or.inr (Or.inl ⟨nextSet, firstIv, h1, h2, rfl, hfi, (Option.some.inj h).symm⟩)
      · rw [if_neg h2] at h
        exact Or.inr (Or.inr ⟨h1, h2, (Option.some.inj h).symm⟩)

/-! ## Tick shape equations -/

/-- Shape of a tick taken in the Rest phase. -/
theorem tick_rest_eq (sets : List WorkoutSet) {t : Timer} (hrun : t.isRunning = true)
    (hpau : t.isPaused = false) (hir : t.isInRest = true) :
    tick sets t =
      if t.restTimeRemaining - 1 = 0 then
        { t with isInRest := false, restTimeRemaining := 0 }
      else
        { t with restTimeRemaining := t.restTimeRemaining - 1 } := by
  obtain ⟨csi, cii, run, pau, tr, ip, ptr, ir, rtr⟩ := t
  cases hrun
  cases hpau
  cases hir
  rfl

/-- Shape of a tick taken in the Pause phase. -/
theorem tick_pause_eq (sets : List WorkoutSet) {t : Timer} (hrun : t.isRunning = true)
    (hpau : t.isPaused = false) (hir : t.isInRest = false) (hip : t.isInPause = true) :
    tick sets t =
      if t.pauseTimeRemaining - 1 = 0 then
        match moveToNextInterval sets t with
        | some nextTimer => nextTimer
        | none => { t with pauseTimeRemaining := t.pauseTimeRemaining - 1 }
      else
        { t with pauseTimeRemaining := t.pauseTimeRemaining - 1 } := by
  obtain ⟨csi, cii, run, pau, tr, ip, ptr, ir, rtr⟩ := t
  cases hrun
  cases hpau
  cases hir
  cases hip
  rfl

/-- Shape of a tick taken in the Active phase. -/
theorem tick_active_eq (sets : List WorkoutSet) {t : Timer} (hrun : t.isRunning = true)
    (hpau : t.isPaused = false) (hir : t.isInRest = false) (hip : t.isInPause = false) :
    tick sets t =
      if t.timeRemaining - 1 = 0 then
        match getCurrentInterval sets t with
        | some currentInterval =>
          if 0 < currentInterval.pauseAfter then
            { t with
              timeRemaining := 0
              isInPause := true
              pauseTimeRemaining := currentInterval.pauseAfter }
          else
            match moveToNextInterval sets t with
            | some nextTimer => nextTimer
            | none => { t with timeRemaining := t.timeRemaining - 1 }
        | none =>
          match moveToNextInterval sets t with
          | some nextTimer => nextTimer
          | none => { t with timeRemaining := t.timeRemaining - 1 }
      else
        { t with timeRemaining := t.timeRemaining - 1 } := by
  obtain ⟨csi, cii, run, pau, tr, ip, ptr, ir, rtr⟩ := t
  cases hrun
  cases hpau
  cases hir
  cases hip
  rfl

/-- Rest tick that reaches zero: leave the rest phase. -/
theorem tick_rest_exit (sets : List WorkoutSet) {t : Timer} (hrun : t.isRunning = true)
    (hpau : t.isPaused = false) (hir : t.isInRest = true)
    (h0 : t.restTimeRemaining - 1 = 0) :
    tick sets t = { t with isInRest := false, restTimeRemaining := 0 } := by
  rw [tick_rest_eq sets hrun hpau hir, if_pos h0]

/-- Rest tick that does not reach zero: decrement. -/
theorem tick_rest_cont (sets : List WorkoutSet) {t : Timer} (hrun : t.isRunning = true)
    (hpau : t.isPaused = false) (hir : t.isInRest = true)
    (h0 : ¬t.restTimeRemaining - 1 = 0) :
    tick sets t = { t with restTimeRemaining := t.restTimeRemaining - 1 } := by
  rw [tick_rest_eq sets hrun hpau hir, if_neg h0]

/-- Pause tick that reaches zero with a successful advance. -/
theorem tick_pause_move (sets : List WorkoutSet) {t t' : Timer} (hrun : t.isRunning = true)
    (hpau : t.isPaused = false) (hir : t.isInRest = false) (hip : t.isInPause = true)
    (h0 : t.pauseTimeRemaining - 1 = 0) (hmv : moveToNextInterval sets t = some t') :
    tick sets t = t' := by
  rw [tick_pause_eq sets hrun hpau hir hip, if_pos h0, hmv]

/-- Pause tick that reaches zero but cannot advance: fall through to the
decrement. -/
theorem tick_pause_stuck (sets : List WorkoutSet) {t : Timer} (hrun : t.isRunning = true)
    (hpau : t.isPaused = false) (hir : t.isInRest = false) (hip : t.isInPause = true)
    (h0 : t.pauseTimeRemaining - 1 = 0) (hmv : moveToNextInterval sets t = none) :
    tick sets t = { t with pauseTimeRemaining := t.pauseTimeRemaining - 1 } := by
  rw [tick_pause_eq sets hrun hpau hir hip, if_pos h0, hmv]

/-- Pause tick that does not reach zero: decrement. -/
theorem tick_pause_cont (sets : List WorkoutSet) {t : Timer} (hrun : t.isRunning = true)
    (hpau : t.isPaused = false) (hir : t.isInRest = false) (hip : t.isInPause = true)
    (h0 : ¬t.pauseTimeRemaining - 1 = 0) :
    tick sets t = { t with pauseTimeRemaining := t.pauseTimeRemaining - 1 } := by
  rw [tick_pause_eq sets hrun hpau hir hip, if_neg h0]

/-- Active tick that does not reach zero: decrement. -/
theorem tick_active_cont (sets : List WorkoutSet) {t : Timer} (hrun : t.isRunning = true)
    (hpau : t.isPaused = false) (hir : t.isInRest = false) (hip : t.isInPause = false)
    (h0 : ¬t.timeRemaining - 1 = 0) :
    tick sets t = { t with timeRemaining := t.timeRemaining - 1 } := by
  rw [tick_active_eq sets hrun hpau hir hip, if_neg h0]

/-- Active tick that ends the interval whose `pauseAfter` is positive:
enter the Pause phase. -/
theorem tick_active_enterPause (sets : List WorkoutSet) {t : Timer}
    {currentInterval : IntervalItem} (hrun : t.isRunning = true)
    (hpau : t.isPaused = false) (hir : t.isInRest = false) (hip : t.isInPause = false)
    (h0 : t.timeRemaining - 1 = 0)
    (hci : getCurrentInterval sets t = some currentInterval)
    (hpa : 0 < currentInterval.pauseAfter) :
    tick sets t =
      { t with
        timeRemaining := 0
        isInPause := true
        pauseTimeRemaining := currentInterval.pauseAfter } := by
  rw [tick_active_eq sets hrun hpau hir hip, if_pos h0, hci]
  simp only [if_pos hpa]

/-- Active tick that ends an interval with zero `pauseAfter` and
advances. -/
theorem tick_active_move (sets : List WorkoutSet) {t t' : Timer}
    {currentInterval : IntervalItem} (hrun : t.isRunning = true)
    (hpau : t.isPaused = false) (hir : t.isInRest = false) (hip : t.isInPause = false)
    (h0 : t.timeRemaining - 1 = 0)
    (hci : getCurrentInterval sets t = some currentInterval)
    (hpa : ¬0 < currentInterval.pauseAfter)
    (hmv : moveToNextInterval sets t = some t') :
    tick sets t = t' := by
  rw [tick_active_eq sets hrun hpau hir hip, if_pos h0, hci]
  simp only [if_neg hpa, hmv]

/-- Active tick that ends an interval with zero `pauseAfter` but cannot
advance: fall through to the decrement. -/
theorem tick_active_stuck (sets : List WorkoutSet) {t : Timer}
    {currentInterval : IntervalItem} (hrun : t.isRunning = true)
    (hpau : t.isPaused = false) (hir : t.isInRest = false) (hip : t.isInPause = false)
    (h0 : t.timeRemaining - 1 = 0)
    (hci : getCurrentInterval sets t = some currentInterval)
    (hpa : ¬0 < currentInterval.pauseAfter)
    (hmv : moveToNextInterval sets t = none) :
    tick sets t = { t with timeRemaining := t.timeRemaining - 1 } := by
  rw [tick_active_eq sets hrun hpau hir hip, if_pos h0, hci]
  simp only [if_neg hpa, hmv]

/-- Active tick that ends while the coordinates address no interval and
advances. -/
theorem tick_active_move_noIv (sets : List WorkoutSet) {t t' : Timer}
    (hrun : t.isRunning = true) (hpau : t.isPaused = false) (hir : t.isInRest = false)
    (hip : t.isInPause = false) (h0 : t.timeRemaining - 1 = 0)
    (hci : getCurrentInterval sets t = none)
    (hmv : moveToNextInterval sets t = some t') :
    tick sets t = t' := by
  rw [tick_active_eq sets hrun hpau hir hip, if_pos h0, hci, hmv]

/-- Active tick that ends while the coordinates address no interval and
cannot advance. -/
theorem tick_active_stuck_noIv (sets : List WorkoutSet) {t : Timer}
    (hrun : t.isRunning = true) (hpau : t.isPaused = false) (hir : t.isInRest = false)
    (hip : t.isInPause = false) (h0 : t.timeRemaining - 1 = 0)
    (hci : getCurrentInterval sets t = none)
    (hmv : moveToNextInterval sets t = none) :
    tick sets t = { t with timeRemaining := t.timeRemaining - 1 } := by
  rw [tick_active_eq sets hrun hpau hir hip, if_pos h0, hci, hmv]

/-! ## The weak invariant holds on every reachable state -/

/-- Structure updates that do not touch the coordinates leave
`getCurrentInterval` unchanged. -/
theorem getCurrentInterval_flags (sets : List WorkoutSet) (t : Timer)
    (b₁ b₂ : Bool) :
    getCurrentInterval sets { t with isRunning := b₁, isPaused := b₂ } =
      getCurrentInterval sets t := rfl

/-- The initial timer satisfies the weak invariant. -/
theorem WInv_init (sets : List WorkoutSet) : WInv sets (initTimer sets) := by
  constructor <;> simp [initTimer]

/-- `startTimer` preserves the weak invariant. -/
theorem WInv_start {sets : List WorkoutSet} {t : Timer} (h : WInv sets t) :
    WInv sets (startTimer t) := by
  obtain ⟨hm, hp, hr, hd⟩ := h
  exact ⟨hm, hp, hr, by simp [startTimer]⟩

/-- `pauseTimer` preserves the weak invariant. -/
theorem WInv_pause {sets : List WorkoutSet} {t : Timer} (h : WInv sets t) :
    WInv sets (pauseTimer t) := by
  obtain ⟨hm, hp, hr, hd⟩ := h
  unfold pauseTimer
  split
  · exact ⟨hm, hp, hr, hd⟩
  · exact ⟨hm, hp, hr, fun hh => hd hh⟩

/-- `resumeTimer` preserves the weak invariant. -/
theorem WInv_resume {sets : List WorkoutSet} {t : Timer} (h : WInv sets t) :
    WInv sets (resumeTimer t) := by
  obtain ⟨hm, hp, hr, hd⟩ := h
  unfold resumeTimer
  split
  · exact ⟨hm, hp, hr, hd⟩
  · exact ⟨hm, hp, hr, fun hh => hd hh⟩

/-- A successful `moveToNextInterval` from a non-rest state preserves
the weak invariant. -/
theorem WInv_moveToNext {sets : List WorkoutSet} {t t' : Timer} (h : WInv sets t)
    (hir : t.isInRest = false) (hrun : t.isRunning = true)
    (hm : moveToNextInterval sets t = some t') : WInv sets t' := by
  obtain ⟨hmx, hp, hr, hd⟩ := h
  obtain ⟨currentSet, hcs, hcase⟩ := moveToNextInterval_spec hm
  rcases hcase with ⟨nextIv, _, _, ht'⟩ | ⟨nextSet, firstIv, _, _, hns, hfi, ht'⟩ |
      ⟨_, _, ht'⟩
  · subst ht'
    exact ⟨by simp, by simp, hr, hd⟩
  · subst ht'
    refine ⟨by simp, by simp, ?_, by simp [hrun]⟩
    intro hdr
    refine ⟨Nat.succ_le_succ (Nat.zero_le _), currentSet, hcs, ?_⟩
    exact of_decide_eq_true hdr
  · subst ht'
    exact ⟨hmx, hp, hr, fun _ => hir⟩

/-- `tick` preserves the weak invariant. -/
theorem WInv_tick {sets : List WorkoutSet} {t : Timer} (h : WInv sets t) :
    WInv sets (tick sets t) := by
  obtain ⟨hm, hp, hr, hd⟩ := h
  by_cases hrun : t.isRunning = false
  · rw [tick_of_not_running sets hrun]; exact ⟨hm, hp, hr, hd⟩
  rw [Bool.not_eq_false] at hrun
  by_cases hpau : t.isPaused = true
  · rw [tick_of_paused sets hpau]; exact ⟨hm, hp, hr, hd⟩
  rw [Bool.not_eq_true] at hpau
  by_cases hir : t.isInRest = true
  · by_cases h0 : t.restTimeRemaining - 1 = 0
    · rw [tick_rest_exit sets hrun hpau hir h0]
      exact ⟨by simp, hp, by simp, fun _ => rfl⟩
    · rw [tick_rest_cont sets hrun hpau hir h0]
      exact ⟨hm, hp, hr, hd⟩
  rw [Bool.not_eq_true] at hir
  by_cases hip : t.isInPause = true
  · by_cases h0 : t.pauseTimeRemaining - 1 = 0
    · cases hmv : moveToNextInterval sets t with
      | none =>
        rw [tick_pause_stuck sets hrun hpau hir hip h0 hmv]
        exact ⟨hm, hp, hr, hd⟩
      | some t' =>
        rw [tick_pause_move sets hrun hpau hir hip h0 hmv]
        exact WInv_moveToNext ⟨hm, hp, hr, hd⟩ hir hrun hmv
    · rw [tick_pause_cont sets hrun hpau hir hip h0]
      exact ⟨hm, hp, hr, hd⟩
  rw [Bool.not_eq_true] at hip
  by_cases h0 : t.timeRemaining - 1 = 0
  · cases hci : getCurrentInterval sets t with
    | none =>
      cases hmv : moveToNextInterval sets t with
      | none =>
        rw [tick_active_stuck_noIv sets hrun hpau hir hip h0 hci hmv]
        exact ⟨hm, hp, hr, hd⟩
      | some t' =>
        rw [tick_active_move_noIv sets hrun hpau hir hip h0 hci hmv]
        exact WInv_moveToNext ⟨hm, hp, hr, hd⟩ hir hrun hmv
    | some currentInterval =>
      by_cases hpa : 0 < currentInterval.pauseAfter
      · rw [tick_active_enterPause sets hrun hpau hir hip h0 hci hpa]
        exact ⟨by simp [hir], fun _ => ⟨currentInterval, hci, hpa⟩, hr, hd⟩
      · cases hmv : moveToNextInterval sets t with
        | none =>
          rw [tick_active_stuck sets hrun hpau hir hip h0 hci hpa hmv]
          exact ⟨hm, hp, hr, hd⟩
        | some t' =>
          rw [tick_active_move sets hrun hpau hir hip h0 hci hpa hmv]
          exact WInv_moveToNext ⟨hm, hp, hr, hd⟩ hir hrun hmv
  · rw [tick_active_cont sets hrun hpau hir hip h0]
    exact ⟨hm, hp, hr, hd⟩

/-- Every reachable state satisfies the weak invariant. -/
theorem WInv_reachable {sets : List WorkoutSet} {t : Timer}
    (h : Reachable sets t) : WInv sets t := by
  induction h with
  | init => exact WInv_init sets
  | start _ ih => exact WInv_start ih
  | pause _ ih => exact WInv_pause ih
  | resume _ ih => exact WInv_resume ih
  | step _ ih => exact WInv_tick ih

/-! ## Cost bookkeeping -/

theorem ivFold_eq (l : List IntervalItem) (a : Nat) :
    l.foldl (fun sum iv => sum + iv.duration + iv.pauseAfter) a = a + ivCostSum l := by
  induction l generalizing a with
  | nil => simp [ivCostSum]
  | cons iv rest ih =>
    simp only [List.foldl_cons, ivCostSum, ih]
    unfold ivCost
    omega

theorem setsFold_eq (l : List WorkoutSet) (a : Nat) :
    l.foldl (fun total s =>
      total + s.intervals.foldl (fun sum iv => sum + iv.duration + iv.pauseAfter) 0
        + s.restAfter) a = a + sessionTotalRec l := by
  induction l generalizing a with
  | nil => simp [sessionTotalRec]
  | cons s rest ih =>
    rw [List.foldl_cons, ih, ivFold_eq]
    simp only [sessionTotalRec]
    omega

/-- `calculateSessionDuration` agrees with its recursive restatement. -/
theorem calculateSessionDuration_eq (sets : List WorkoutSet) :
    calculateSessionDuration sets = sessionTotalRec sets := by
  unfold calculateSessionDuration
  rw [setsFold_eq]
  omega

/-- Splitting the total schedule time into the served ticks and the
final, never-served rest. -/
theorem sessionTotalRec_eq_tailCost :
    ∀ sets : List WorkoutSet, sessionTotalRec sets = tailCost sets + lastRestAfter sets
  | [] => rfl
  | [s] => by
    simp only [sessionTotalRec, tailCost, lastRestAfter, List.getLast?_singleton]
    omega
  | s :: s' :: rest => by
    have ih := sessionTotalRec_eq_tailCost (s' :: rest)
    simp only [sessionTotalRec, tailCost, lastRestAfter, List.getLast?_cons_cons] at ih ⊢
    omega

/-- The engine's actual run length equals `tailCost`. -/
theorem scheduledTicks_eq_tailCost (sets : List WorkoutSet) :
    scheduledTicks sets = tailCost sets := by
  unfold scheduledTicks
  rw [calculateSessionDuration_eq, sessionTotalRec_eq_tailCost]
  omega

/-! ## List indexing helpers -/

theorem drop_cons_of_get? {α : Type} {l : List α} {n : Nat} {a : α}
    (h : l.get? n = some a) : l.drop n = a :: l.drop (n + 1) := by
  induction l generalizing n with
  | nil => simp at h
  | cons x xs ih =>
    cases n with
    | zero =>
      simp only [List.get?] at h
      injection h with h
      subst h
      rfl
    | succ n =>
      simp only [List.get?] at h
      simpa using ih h

theorem get?_lt_length {α : Type} {l : List α} {n : Nat} {a : α}
    (h : l.get? n = some a) : n < l.length := by
  by_contra hc
  rw [List.get?_eq_none.2 (by omega)] at h
  cases h

theorem exists_get?_of_lt {α : Type} {l : List α} {n : Nat} (h : n < l.length) :
    ∃ a, l.get? n = some a :=
  ⟨l.get ⟨n, h⟩, List.get?_eq_get h⟩

theorem ivCostSum_drop {l : List IntervalItem} {n : Nat} {iv : IntervalItem}
    (h : l.get? n = some iv) :
    ivCostSum (l.drop n) = ivCost iv + ivCostSum (l.drop (n + 1)) := by
  rw [drop_cons_of_get? h]
  rfl

theorem tailCost_drop {l : List WorkoutSet} {n : Nat} {s : WorkoutSet}
    (h : l.get? n = some s) :
    tailCost (l.drop n) = ivCostSum s.intervals +
      (if n + 1 < l.length then s.restAfter + tailCost (l.drop (n + 1)) else 0) := by
  rw [drop_cons_of_get? h]
  cases hd : l.drop (n + 1) with
  | nil =>
    have hlen : l.length ≤ n + 1 := List.drop_eq_nil_iff.1 hd
    rw [if_neg (by omega)]
    simp [tailCost]
  | cons y ys =>
    have hlen : n + 1 < l.length := by
      by_contra hc
      have h2 : l.drop (n + 1) = [] := List.drop_eq_nil_iff.2 (by omega)
      rw [h2] at hd
      cases hd
    rw [if_pos hlen]
    simp only [tailCost]
    omega

theorem ivCostSum_pos {l : List IntervalItem} (hne : l ≠ [])
    (hdur : ∀ iv ∈ l, 1 ≤ iv.duration) : 1 ≤ ivCostSum l := by
  cases l with
  | nil => exact absurd rfl hne
  | cons iv ivs =>
    have h1 := hdur iv (List.mem_cons_self _ _)
    simp only [ivCostSum]
    unfold ivCost
    omega

theorem tailCost_pos {l : List WorkoutSet}
    (h : ∀ s ∈ l, s.intervals ≠ [] ∧ ∀ iv ∈ s.intervals, 1 ≤ iv.duration)
    (hne : l ≠ []) : 1 ≤ tailCost l := by
  match l with
  | [] => exact absurd rfl hne
  | [s] =>
    have hs := h s (List.mem_cons_self _ _)
    have := ivCostSum_pos hs.1 hs.2
    simp only [tailCost]
    omega
  | s :: s' :: rest =>
    have hs := h s (List.mem_cons_self _ _)
    have := ivCostSum_pos hs.1 hs.2
    simp only [tailCost]
    omega

/-- Durations of addressed intervals are positive in a valid
schedule. -/
theorem valid_duration {sets : List WorkoutSet} {i j : Nat} {s : WorkoutSet}
    {iv : IntervalItem} (hv : ValidSchedule sets) (hs : sets.get? i = some s)
    (hiv : s.intervals.get? j = some iv) : 1 ≤ iv.duration :=
  (hv.2 s (List.get?_mem hs)).2 iv (List.get?_mem hiv)

/-! ## Reading the measure -/

theorem getCurrentInterval_mk {sets : List WorkoutSet} {t : Timer} {s : WorkoutSet}
    {iv : IntervalItem} (hcs : sets.get? t.currentSetIndex = some s)
    (hciv : s.intervals.get? t.currentIntervalIndex = some iv) :
    getCurrentInterval sets t = some iv := by
  unfold getCurrentInterval
  rw [hcs]
  exact hciv

theorem getCurrentInterval_inv {sets : List WorkoutSet} {t : Timer} {iv : IntervalItem}
    (h : getCurrentInterval sets t = some iv) :
    ∃ s, sets.get? t.currentSetIndex = some s ∧
      s.intervals.get? t.currentIntervalIndex = some iv := by
  unfold getCurrentInterval at h
  cases hcs : sets.get? t.currentSetIndex with
  | none => rw [hcs] at h; cases h
  | some s => rw [hcs] at h; exact ⟨s, rfl, h⟩

theorem afterIv_eq {sets : List WorkoutSet} {t : Timer} {s : WorkoutSet}
    (hcs : sets.get? t.currentSetIndex = some s) :
    afterIv sets t = ivCostSum (s.intervals.drop (t.currentIntervalIndex + 1)) +
      (if t.currentSetIndex + 1 < sets.length then
        s.restAfter + tailCost (sets.drop (t.currentSetIndex + 1))
      else 0) := by
  unfold afterIv
  rw [hcs]

theorem currentPauseAfter_eq {sets : List WorkoutSet} {t : Timer} {iv : IntervalItem}
    (h : getCurrentInterval sets t = some iv) :
    currentPauseAfter sets t = iv.pauseAfter := by
  unfold currentPauseAfter
  rw [h]

theorem stepsLeft_done {sets : List WorkoutSet} {t : Timer} (h : t.isRunning = false) :
    stepsLeft sets t = 0 := by
  unfold stepsLeft
  rw [if_pos h]

theorem stepsLeft_rest {w : List WorkoutSet} {t : Timer} (hrun : t.isRunning = true)
    (hir : t.isInRest = true) :
    stepsLeft w t = t.restTimeRemaining + tailCost (w.drop t.currentSetIndex) := by
  unfold stepsLeft
  rw [if_neg (by rw [hrun]; exact fun h => nomatch h), if_pos hir]

theorem stepsLeft_pause {w : List WorkoutSet} {t : Timer} (hrun : t.isRunning = true)
    (hir : t.isInRest = false) (hip : t.isInPause = true) :
    stepsLeft w t = t.pauseTimeRemaining + afterIv w t := by
  unfold stepsLeft
  rw [if_neg (by rw [hrun]; exact fun h => nomatch h),
    if_neg (by rw [hir]; exact fun h => nomatch h), if_pos hip]

theorem stepsLeft_active {w : List WorkoutSet} {t : Timer} (hrun : t.isRunning = true)
    (hir : t.isInRest = false) (hip : t.isInPause = false) :
    stepsLeft w t = t.timeRemaining + currentPauseAfter w t + afterIv w t := by
  unfold stepsLeft
  rw [if_neg (by rw [hrun]; exact fun h => nomatch h),
    if_neg (by rw [hir]; exact fun h => nomatch h),
    if_neg (by rw [hip]; exact fun h => nomatch h)]

/-! ## Advancing always succeeds from an addressable position -/

theorem moveToNextInterval_total {sets : List WorkoutSet} {t : Timer} {s : WorkoutSet}
    (hv : ValidSchedule sets) (hcs : sets.get? t.currentSetIndex = some s) :
    ∃ t', moveToNextInterval sets t = some t' := by
  unfold moveToNextInterval
  simp only [hcs]
  by_cases h1 : t.currentIntervalIndex < s.intervals.length - 1
  · rw [if_pos h1]
    obtain ⟨a, ha⟩ := exists_get?_of_lt (l := s.intervals)
      (n := t.currentIntervalIndex + 1) (by omega)
    rw [ha]
    exact ⟨_, rfl⟩
  · rw [if_neg h1]
    by_cases h2 : t.currentSetIndex < sets.length - 1
    · rw [if_pos h2]
      have hcsL : t.currentSetIndex < sets.length := get?_lt_length hcs
      obtain ⟨ns, hns⟩ := exists_get?_of_lt (l := sets)
        (n := t.currentSetIndex + 1) (by omega)
      simp only [hns]
      have hne := (hv.2 ns (List.get?_mem hns)).1
      cases hI : ns.intervals with
      | nil => exact absurd hI hne
      | cons iv0 ivs =>
        exact ⟨_, rfl⟩
    · rw [if_neg h2]
      exact ⟨_, rfl⟩

/-! ## The one-tick advance across a phase boundary -/

/-- Combined accounting for a successful `moveToNextInterval` from a
position addressing interval `iv` of set `s`: the resulting state is
`afterIv` ticks from completion, is completely shaped when `afterIv`
is zero, and satisfies the running invariant otherwise. -/
theorem moveToNext_step {sets : List WorkoutSet} {t t' : Timer} {s : WorkoutSet}
    {iv : IntervalItem} (hv : ValidSchedule sets)
    (hcs : sets.get? t.currentSetIndex = some s)
    (hciv : s.intervals.get? t.currentIntervalIndex = some iv)
    (hrun : t.isRunning = true) (hpau : t.isPaused = false) (hir : t.isInRest = false)
    (hpf : t.isInPause = true → 1 ≤ iv.pauseAfter)
    (hmv : moveToNextInterval sets t = some t') :
    stepsLeft sets t' = afterIv sets t ∧
    (afterIv sets t = 0 → CompleteShape sets t') ∧
    (1 ≤ afterIv sets t → InvRun sets t') := by
  have hcsL : t.currentSetIndex < sets.length := get?_lt_length hcs
  have hciL : t.currentIntervalIndex < s.intervals.length := get?_lt_length hciv
  have haft := afterIv_eq hcs
  obtain ⟨cs₂, hcs₂, hcase⟩ := moveToNextInterval_spec hmv
  rw [hcs] at hcs₂
  injection hcs₂ with hcs₂
  subst hcs₂
  rcases hcase with ⟨nxt, hlt, hnx, ht'⟩ | ⟨nextSet, firstIv, hnlt, hslt, hns, hfi, ht'⟩ |
      ⟨hnlt, hnslt, ht'⟩
  · -- advance within the same set
    subst ht'
    have hdur := valid_duration hv hcs hnx
    have hgi' : getCurrentInterval sets
        { t with
          currentIntervalIndex := t.currentIntervalIndex + 1
          timeRemaining := nxt.duration
          isInPause := false
          pauseTimeRemaining := nxt.pauseAfter } = some nxt :=
      getCurrentInterval_mk hcs hnx
    have hsl := stepsLeft_active (w := sets) (t :=
      { t with
        currentIntervalIndex := t.currentIntervalIndex + 1
        timeRemaining := nxt.duration
        isInPause := false
        pauseTimeRemaining := nxt.pauseAfter }) hrun hir rfl
    rw [currentPauseAfter_eq hgi', afterIv_eq (t :=
      { t with
        currentIntervalIndex := t.currentIntervalIndex + 1
        timeRemaining := nxt.duration
        isInPause := false
        pauseTimeRemaining := nxt.pauseAfter }) hcs] at hsl
    dsimp only at hsl
    rw [ivCostSum_drop hnx] at haft
    have hcost : 1 ≤ ivCost nxt := by unfold ivCost; omega
    unfold ivCost at haft hcost
    refine ⟨by rw [hsl, haft]; omega, ?_, ?_⟩
    · intro h0
      rw [haft] at h0
      omega
    · intro _
      refine ⟨hrun, hpau, hcsL, ⟨nxt, hgi'⟩, by simp, fun _ _ => hdur,
        fun _ _ iv' hiv' => ?_, fun hq => by simp at hq, fun hq => by simp [hir] at hq,
        fun hq => by simp [hir] at hq, fun hq => by simp [hir] at hq⟩
      rw [hgi'] at hiv'
      injection hiv' with hiv'
      subst hiv'
      exact Nat.le_refl _
  · -- advance to the next set
    subst ht'
    have hdur := valid_duration hv hns hfi
    have hdropI : s.intervals.drop (t.currentIntervalIndex + 1) = [] :=
      List.drop_eq_nil_iff.2 (by omega)
    have hlen : t.currentSetIndex + 1 < sets.length := by omega
    rw [hdropI, if_pos hlen] at haft
    simp only [ivCostSum] at haft
    have htcd := tailCost_drop hns
    have hfi' := ivCostSum_drop (n := 0) hfi
    rw [List.drop_zero] at hfi'
    have htcPos : 1 ≤ tailCost (sets.drop (t.currentSetIndex + 1)) := by
      refine tailCost_pos (fun s' hs' => hv.2 s' (List.drop_subset _ _ hs')) ?_
      rw [Ne, List.drop_eq_nil_iff]
      omega
    have hgi' : getCurrentInterval sets
        { t with
          currentSetIndex := t.currentSetIndex + 1
          currentIntervalIndex := 0
          timeRemaining := firstIv.duration
          isInPause := false
          pauseTimeRemaining := firstIv.pauseAfter
          isInRest := decide (0 < s.restAfter)
          restTimeRemaining := s.restAfter } = some firstIv :=
      getCurrentInterval_mk hns hfi
    by_cases hra : 0 < s.restAfter
    · have hirT : ({ t with
          currentSetIndex := t.currentSetIndex + 1
          currentIntervalIndex := 0
          timeRemaining := firstIv.duration
          isInPause := false
          pauseTimeRemaining := firstIv.pauseAfter
          isInRest := decide (0 < s.restAfter)
          restTimeRemaining := s.restAfter } : Timer).isInRest = true :=
        decide_eq_true hra
      have hsl := stepsLeft_rest (w := sets) (t :=
        { t with
          currentSetIndex := t.currentSetIndex + 1
          currentIntervalIndex := 0
          timeRemaining := firstIv.duration
          isInPause := false
          pauseTimeRemaining := firstIv.pauseAfter
          isInRest := decide (0 < s.restAfter)
          restTimeRemaining := s.restAfter }) hrun hirT
      dsimp only at hsl
      refine ⟨by rw [hsl, haft]; omega, fun h0 => by rw [haft] at h0; omega,
        fun _ => ?_⟩
      refine ⟨hrun, hpau, hlen, ⟨firstIv, hgi'⟩, by simp,
        (fun _ hq => by rw [hq] at hirT; exact nomatch hirT),
        (fun _ hq _ _ => by rw [hq] at hirT; exact nomatch hirT),
        (fun hq => by simp at hq),
        (fun _ => ⟨Nat.succ_le_succ (Nat.zero_le _), rfl⟩),
        (fun _ => ⟨s, hcs, hra, Nat.le_refl _⟩), fun _ iv' hiv' => ?_⟩
      rw [hgi'] at hiv'
      injection hiv' with hiv'
      subst hiv'
      rfl
    · have hirF : ({ t with
          currentSetIndex := t.currentSetIndex + 1
          currentIntervalIndex := 0
          timeRemaining := firstIv.duration
          isInPause := false
          pauseTimeRemaining := firstIv.pauseAfter
          isInRest := decide (0 < s.restAfter)
          restTimeRemaining := s.restAfter } : Timer).isInRest = false := by
        simp [hra]
      have hsl := stepsLeft_active (w := sets) (t :=
        { t with
          currentSetIndex := t.currentSetIndex + 1
          currentIntervalIndex := 0
          timeRemaining := firstIv.duration
          isInPause := false
          pauseTimeRemaining := firstIv.pauseAfter
          isInRest := decide (0 < s.restAfter)
          restTimeRemaining := s.restAfter }) hrun hirF rfl
      rw [currentPauseAfter_eq hgi', afterIv_eq (t :=
        { t with
          currentSetIndex := t.currentSetIndex + 1
          currentIntervalIndex := 0
          timeRemaining := firstIv.duration
          isInPause := false
          pauseTimeRemaining := firstIv.pauseAfter
          isInRest := decide (0 < s.restAfter)
          restTimeRemaining := s.restAfter }) hns] at hsl
      dsimp only at hsl
      refine ⟨?_, fun h0 => by rw [haft] at h0; omega, fun _ => ?_⟩
      · rw [hsl, haft, htcd]
        unfold ivCost at hfi'
        omega
      · refine ⟨hrun, hpau, hlen, ⟨firstIv, hgi'⟩, by simp, (fun _ _ => hdur),
          (fun _ _ iv' hiv' => ?_), (fun hq => by simp at hq),
          (fun hq => by rw [hq] at hirF; exact nomatch hirF),
          (fun hq => by rw [hq] at hirF; exact nomatch hirF),
          (fun hq => by rw [hq] at hirF; exact nomatch hirF)⟩
        rw [hgi'] at hiv'
        injection hiv' with hiv'
        subst hiv'
        exact Nat.le_refl _
  · -- session complete
    subst ht'
    have hdropI : s.intervals.drop (t.currentIntervalIndex + 1) = [] :=
      List.drop_eq_nil_iff.2 (by omega)
    have hnlen : ¬t.currentSetIndex + 1 < sets.length := by omega
    rw [hdropI, if_neg hnlen] at haft
    simp only [ivCostSum] at haft
    have hsl : stepsLeft sets
        { t with isRunning := false, timeRemaining := 0 } = 0 := stepsLeft_done rfl
    refine ⟨by rw [hsl, haft], fun _ => ?_, fun h1 => by rw [haft] at h1; omega⟩
    refine ⟨rfl, rfl, hir, hpau, by dsimp only; omega, (fun s' hs' => ?_),
      fun hp' iv' hiv' => ?_⟩
    · rw [hcs] at hs'
      injection hs' with hs'
      subst hs'
      dsimp only
      omega
    · rw [getCurrentInterval_mk (t := { t with isRunning := false, timeRemaining := 0 })
        hcs hciv] at hiv'
      injection hiv' with hiv'
      subst hiv'
      exact hpf hp'

/-! ## The tick decrements the measure by exactly one -/

/-- One tick of a running, un-paused invariant state: the measure is
positive, drops by exactly one, and the successor state is completely
shaped at measure one and an invariant state before that. -/
theorem tick_step {sets : List WorkoutSet} {t : Timer} (hv : ValidSchedule sets)
    (h : InvRun sets t) :
    1 ≤ stepsLeft sets t ∧
    stepsLeft sets (tick sets t) = stepsLeft sets t - 1 ∧
    (stepsLeft sets t = 1 → CompleteShape sets (tick sets t)) ∧
    (1 < stepsLeft sets t → InvRun sets (tick sets t)) := by
  obtain ⟨hrun, hpau, hset, ⟨iv, hgi⟩, hmut, halb, haub, hpb, hrs, hrb, hrst⟩ := h
  obtain ⟨s, hcs, hciv⟩ := getCurrentInterval_inv hgi
  by_cases hir : t.isInRest = true
  · -- Rest phase
    have hip : t.isInPause = false := by
      cases hq : t.isInPause
      · rfl
      · exact absurd ⟨hq, hir⟩ hmut
    obtain ⟨ps, hps, hrb1, hrb2⟩ := hrb hir
    obtain ⟨hcs1, hcc⟩ := hrs hir
    have hstaged := hrst hir iv hgi
    have hsl := stepsLeft_rest (w := sets) hrun hir
    have htc := tailCost_drop hcs
    have hciv0 : s.intervals.get? 0 = some iv := by rw [← hcc]; exact hciv
    have hivs := ivCostSum_drop (n := 0) hciv0
    rw [List.drop_zero] at hivs
    unfold ivCost at hivs
    by_cases h0 : t.restTimeRemaining - 1 = 0
    · rw [tick_rest_exit sets hrun hpau hir h0]
      have hgi' : getCurrentInterval sets
          { t with isInRest := false, restTimeRemaining := 0 } = some iv :=
        getCurrentInterval_mk hcs hciv
      have hsl' := stepsLeft_active (w := sets)
        (t := { t with isInRest := false, restTimeRemaining := 0 }) hrun rfl hip
      rw [currentPauseAfter_eq hgi',
        afterIv_eq (t := { t with isInRest := false, restTimeRemaining := 0 }) hcs] at hsl'
      dsimp only at hsl'
      rw [show s.intervals.drop (t.currentIntervalIndex + 1) =
        s.intervals.drop (0 + 1) from by rw [hcc]] at hsl'
      refine ⟨by rw [hsl]; omega, ?_, ?_, ?_⟩
      · rw [hsl', hsl, htc, hivs]
        omega
      · intro hq
        rw [hsl] at hq
        have htcPos : 1 ≤ tailCost (sets.drop t.currentSetIndex) := by
          refine tailCost_pos (fun s' hs' => hv.2 s' (List.drop_subset _ _ hs')) ?_
          rw [Ne, List.drop_eq_nil_iff]
          omega
        exact absurd hq (by omega)
      · intro _
        refine ⟨hrun, hpau, hset, ⟨iv, hgi'⟩, by simp,
          (fun _ _ => by dsimp only; rw [hstaged]; exact valid_duration hv hcs hciv),
          (fun _ _ iv' hiv' => ?_),
          (fun hq => by dsimp only at hq; rw [hq] at hip; exact nomatch hip),
          (fun hq => by simp at hq), (fun hq => by simp at hq),
          (fun hq => by simp at hq)⟩
        rw [hgi'] at hiv'
        injection hiv' with hiv'
        subst hiv'
        dsimp only
        exact Nat.le_of_eq hstaged
    · rw [tick_rest_cont sets hrun hpau hir h0]
      have hsl' := stepsLeft_rest (w := sets)
        (t := { t with restTimeRemaining := t.restTimeRemaining - 1 }) hrun hir
      dsimp only at hsl'
      refine ⟨by rw [hsl]; omega, by rw [hsl', hsl]; omega, ?_, ?_⟩
      · intro hq
        rw [hsl] at hq
        have htcPos : 1 ≤ tailCost (sets.drop t.currentSetIndex) := by
          refine tailCost_pos (fun s' hs' => hv.2 s' (List.drop_subset _ _ hs')) ?_
          rw [Ne, List.drop_eq_nil_iff]
          omega
        exact absurd hq (by omega)
      · intro _
        refine ⟨hrun, hpau, hset,
          ⟨iv, getCurrentInterval_mk (t :=
            { t with restTimeRemaining := t.restTimeRemaining - 1 }) hcs hciv⟩,
          hmut, halb, haub, hpb, hrs, (fun _ => ⟨ps, hps, ?_, ?_⟩), hrst⟩
        · dsimp only
          omega
        · dsimp only
          omega
  · -- Not in rest
    rw [Bool.not_eq_true] at hir
    by_cases hip : t.isInPause = true
    · -- Pause phase
      have hpbs := hpb hip iv hgi
      have hsl := stepsLeft_pause (w := sets) hrun hir hip
      by_cases h0 : t.pauseTimeRemaining - 1 = 0
      · obtain ⟨t', hmv⟩ := moveToNextInterval_total hv hcs
        rw [tick_pause_move sets hrun hpau hir hip h0 hmv]
        have hms := moveToNext_step hv hcs hciv hrun hpau hir (fun _ => by omega) hmv
        refine ⟨by rw [hsl]; omega, by rw [hms.1, hsl]; omega, ?_, ?_⟩
        · intro hq
          rw [hsl] at hq
          exact hms.2.1 (by omega)
        · intro hq
          rw [hsl] at hq
          exact hms.2.2 (by omega)
      · rw [tick_pause_cont sets hrun hpau hir hip h0]
        have hgi' : getCurrentInterval sets
            { t with pauseTimeRemaining := t.pauseTimeRemaining - 1 } = some iv :=
          getCurrentInterval_mk hcs hciv
        have hsl' := stepsLeft_pause (w := sets)
          (t := { t with pauseTimeRemaining := t.pauseTimeRemaining - 1 }) hrun hir hip
        rw [afterIv_eq (t :=
          { t with pauseTimeRemaining := t.pauseTimeRemaining - 1 }) hcs] at hsl'
        dsimp only at hsl'
        have haft := afterIv_eq hcs
        refine ⟨by rw [hsl]; omega, by rw [hsl', hsl, haft]; omega, ?_, ?_⟩
        · intro hq
          rw [hsl] at hq
          exact absurd hq (by omega)
        · intro _
          refine ⟨hrun, hpau, hset, ⟨iv, hgi'⟩, hmut, halb, haub,
            (fun _ iv' hiv' => ?_), hrs, hrb, hrst⟩
          rw [hgi'] at hiv'
          injection hiv' with hiv'
          subst hiv'
          refine ⟨by dsimp only; omega, by dsimp only; omega⟩
    · -- Active phase
      rw [Bool.not_eq_true] at hip
      have halb' := halb hip hir
      have haub' := haub hip hir iv hgi
      have hsl := stepsLeft_active (w := sets) hrun hir hip
      rw [currentPauseAfter_eq hgi] at hsl
      by_cases h0 : t.timeRemaining - 1 = 0
      · by_cases hpa : 0 < iv.pauseAfter
        · rw [tick_active_enterPause sets hrun hpau hir hip h0 hgi hpa]
          have hgi' : getCurrentInterval sets
              { t with
                timeRemaining := 0
                isInPause := true
                pauseTimeRemaining := iv.pauseAfter } = some iv :=
            getCurrentInterval_mk hcs hciv
          have hsl' := stepsLeft_pause (w := sets)
            (t := { t with
              timeRemaining := 0
              isInPause := true
              pauseTimeRemaining := iv.pauseAfter }) hrun hir rfl
          rw [afterIv_eq (t := { t with
            timeRemaining := 0
            isInPause := true
            pauseTimeRemaining := iv.pauseAfter }) hcs] at hsl'
          dsimp only at hsl'
          have haft := afterIv_eq hcs
          refine ⟨by rw [hsl]; omega, by rw [hsl', hsl, haft]; omega, ?_, ?_⟩
          · intro hq
            rw [hsl] at hq
            exact absurd hq (by omega)
          · intro _
            refine ⟨hrun, hpau, hset, ⟨iv, hgi'⟩, by simp [hir],
              (fun hq _ => by simp at hq), (fun hq _ => by simp at hq),
              (fun _ iv' hiv' => ?_),
              (fun hq => by dsimp only at hq; rw [hq] at hir; exact nomatch hir),
              (fun hq => by dsimp only at hq; rw [hq] at hir; exact nomatch hir),
              (fun hq => by dsimp only at hq; rw [hq] at hir; exact nomatch hir)⟩
            rw [hgi'] at hiv'
            injection hiv' with hiv'
            subst hiv'
            refine ⟨by dsimp only; omega, by dsimp only; omega⟩
        · obtain ⟨t', hmv⟩ := moveToNextInterval_total hv hcs
          rw [tick_active_move sets hrun hpau hir hip h0 hgi hpa hmv]
          have hms := moveToNext_step hv hcs hciv hrun hpau hir
            (fun hq => by rw [hq] at hip; exact nomatch hip) hmv
          refine ⟨by rw [hsl]; omega, by rw [hms.1, hsl]; omega, ?_, ?_⟩
          · intro hq
            rw [hsl] at hq
            exact hms.2.1 (by omega)
          · intro hq
            rw [hsl] at hq
            exact hms.2.2 (by omega)
      · rw [tick_active_cont sets hrun hpau hir hip h0]
        have hgi' : getCurrentInterval sets
            { t with timeRemaining := t.timeRemaining - 1 } = some iv :=
          getCurrentInterval_mk hcs hciv
        have hsl' := stepsLeft_active (w := sets)
          (t := { t with timeRemaining := t.timeRemaining - 1 }) hrun hir hip
        rw [currentPauseAfter_eq hgi',
          afterIv_eq (t := { t with timeRemaining := t.timeRemaining - 1 }) hcs] at hsl'
        dsimp only at hsl'
        have haft := afterIv_eq hcs
        rw [haft] at hsl
        refine ⟨by rw [hsl]; omega, by rw [hsl', hsl]; omega, ?_, ?_⟩
        · intro hq
          rw [hsl] at hq
          exact absurd hq (by omega)
        · intro _
          refine ⟨hrun, hpau, hset, ⟨iv, hgi'⟩, hmut,
            (fun _ _ => by dsimp only; omega), (fun _ _ iv' hiv' => ?_), hpb,
            (fun hq => by dsimp only at hq; rw [hq] at hir; exact nomatch hir),
            (fun hq => by dsimp only at hq; rw [hq] at hir; exact nomatch hir),
            (fun hq => by dsimp only at hq; rw [hq] at hir; exact nomatch hir)⟩
          rw [hgi'] at hiv'
          injection hiv' with hiv'
          subst hiv'
          dsimp only
          omega

/-! ## The started initial state -/

/-- Explicit form of the started initial timer of a schedule whose
first set's first interval is `iv₀`. -/
theorem init_start_eq {s₀ : WorkoutSet} {rest : List WorkoutSet} {iv₀ : IntervalItem}
    (hiv0 : s₀.intervals.get? 0 = some iv₀) :
    startTimer (initTimer (s₀ :: rest)) =
      ⟨0, 0, true, false, iv₀.duration, false, iv₀.pauseAfter, false, s₀.restAfter⟩ := by
  unfold startTimer initTimer
  have hiv0' : s₀.intervals[0]? = some iv₀ := by
    rw [← List.get?_eq_getElem?]
    exact hiv0
  simp [hiv0']

/-- The started initial state of a valid schedule satisfies the running
invariant. -/
theorem InvRun_start {sets : List WorkoutSet} (hv : ValidSchedule sets) :
    InvRun sets (startTimer (initTimer sets)) := by
  cases sets with
  | nil => exact absurd rfl hv.1
  | cons s₀ rest =>
    have hivne := (hv.2 s₀ (List.mem_cons_self _ _)).1
    cases hI : s₀.intervals with
    | nil => exact absurd hI hivne
    | cons iv₀ ivs =>
      have hiv0 : s₀.intervals.get? 0 = some iv₀ := by rw [hI]; rfl
      have hs0 : (s₀ :: rest).get? 0 = some s₀ := rfl
      have hdur := valid_duration hv hs0 hiv0
      rw [init_start_eq hiv0]
      have hgi : getCurrentInterval (s₀ :: rest)
          (⟨0, 0, true, false, iv₀.duration, false, iv₀.pauseAfter, false,
            s₀.restAfter⟩ : Timer) = some iv₀ :=
        getCurrentInterval_mk hs0 hiv0
      refine ⟨rfl, rfl, Nat.succ_le_succ (Nat.zero_le _), ⟨iv₀, hgi⟩, by simp,
        (fun _ _ => hdur), (fun _ _ iv' hiv' => ?_), (fun hq => by simp at hq),
        (fun hq => by simp at hq), (fun hq => by simp at hq),
        (fun hq => by simp at hq)⟩
      rw [hgi] at hiv'
      injection hiv' with hiv'
      subst hiv'
      exact Nat.le_refl _

/-- The started initial state is exactly `tailCost` ticks from
completion. -/
theorem stepsLeft_start {sets : List WorkoutSet} (hv : ValidSchedule sets) :
    stepsLeft sets (startTimer (initTimer sets)) = tailCost sets := by
  cases sets with
  | nil => exact absurd rfl hv.1
  | cons s₀ rest =>
    have hivne := (hv.2 s₀ (List.mem_cons_self _ _)).1
    cases hI : s₀.intervals with
    | nil => exact absurd hI hivne
    | cons iv₀ ivs =>
      have hiv0 : s₀.intervals.get? 0 = some iv₀ := by rw [hI]; rfl
      have hs0 : (s₀ :: rest).get? 0 = some s₀ := rfl
      rw [init_start_eq hiv0]
      have hgi : getCurrentInterval (s₀ :: rest)
          (⟨0, 0, true, false, iv₀.duration, false, iv₀.pauseAfter, false,
            s₀.restAfter⟩ : Timer) = some iv₀ :=
        getCurrentInterval_mk hs0 hiv0
      have hsl := stepsLeft_active (w := s₀ :: rest)
        (t := ⟨0, 0, true, false, iv₀.duration, false, iv₀.pauseAfter, false,
          s₀.restAfter⟩) rfl rfl rfl
      rw [currentPauseAfter_eq hgi, afterIv_eq (t :=
        (⟨0, 0, true, false, iv₀.duration, false, iv₀.pauseAfter, false,
          s₀.restAfter⟩ : Timer)) hs0] at hsl
      dsimp only at hsl
      have hivs := ivCostSum_drop (n := 0) hiv0
      rw [List.drop_zero] at hivs
      unfold ivCost at hivs
      rw [hsl]
      cases rest with
      | nil =>
        rw [if_neg (by simp)]
        simp only [tailCost, hivs]
        omega
      | cons s₁ rest' =>
        rw [if_pos (by simp)]
        simp only [tailCost, hivs, List.drop_succ_cons, List.drop_zero]
        omega

/-! ## Accumulated runs -/

/-- While the measure has not run out, iterated ticks keep the invariant
and decrease the measure by exactly the tick count. -/
theorem tick_run_lt {sets : List WorkoutSet} {t : Timer} (hv : ValidSchedule sets)
    (h : InvRun sets t) :
    ∀ k, k < stepsLeft sets t →
      InvRun sets (tickIter sets k t) ∧
      stepsLeft sets (tickIter sets k t) = stepsLeft sets t - k := by
  intro k
  induction k with
  | zero => intro _; exact ⟨h, by simp [tickIter]⟩
  | succ k ih =>
    intro hk
    obtain ⟨hinv, hsteps⟩ := ih (by omega)
    have hstep := tick_step hv hinv
    have hit : tickIter sets (k + 1) t = tick sets (tickIter sets k t) := by
      rw [tickIter_add sets k 1 t]
      rfl
    rw [hit]
    refine ⟨hstep.2.2.2 (by rw [hsteps]; omega), ?_⟩
    rw [hstep.2.1, hsteps]
    omega

/-- After exactly `stepsLeft` ticks the state is completely shaped. -/
theorem tick_run_complete {sets : List WorkoutSet} {t : Timer} (hv : ValidSchedule sets)
    (h : InvRun sets t) :
    CompleteShape sets (tickIter sets (stepsLeft sets t) t) := by
  have h1 := (tick_step hv h).1
  obtain ⟨hinv, hsteps⟩ := tick_run_lt hv h (stepsLeft sets t - 1) (by omega)
  have hstep := tick_step hv hinv
  have hone : stepsLeft sets (tickIter sets (stepsLeft sets t - 1) t) = 1 := by omega
  have hit : tickIter sets (stepsLeft sets t) t =
      tick sets (tickIter sets (stepsLeft sets t - 1) t) := by
    conv_lhs => rw [show stepsLeft sets t = (stepsLeft sets t - 1) + 1 from by omega]
    rw [tickIter_add]
    rfl
  rw [hit]
  exact hstep.2.2.1 hone

/-! ## C1 — exact session duration -/

/-- C1 (amended): for every valid schedule, the started engine reaches
the Complete state (`isRunning = false`, `timeRemaining = 0`) for the
first time after exactly `calculateSessionDuration − (last set's
restAfter)` ticks — the last set's `restAfter` is never served because
no set follows it — and stays Complete at every later tick count; at
every earlier count it is not Complete. -/
theorem C1_completes_after_scheduledTicks (sets : List WorkoutSet)
    (hv : ValidSchedule sets) (k : Nat) :
    isComplete (tickIter sets k (startTimer (initTimer sets))) = true ↔
      scheduledTicks sets ≤ k := by
  have hinv := InvRun_start hv
  have hN := stepsLeft_start hv
  rw [scheduledTicks_eq_tailCost]
  constructor
  · intro hc
    by_contra hlt
    rw [not_le] at hlt
    obtain ⟨hinvk, _⟩ := tick_run_lt hv hinv k (by omega)
    unfold isComplete at hc
    rw [hinvk.running] at hc
    simp at hc
  · intro hk
    have hshape := tick_run_complete hv hinv
    rw [hN] at hshape
    have habs : tickIter sets k (startTimer (initTimer sets)) =
        tickIter sets (tailCost sets) (startTimer (initTimer sets)) := by
      conv_lhs => rw [show k = tailCost sets + (k - tailCost sets) from by omega]
      rw [tickIter_add]
      exact tickIter_of_not_running sets hshape.notRunning _
    rw [habs]
    unfold isComplete
    rw [hshape.notRunning, hshape.timeZero]
    rfl

/-- C1 witness: the spec's own example schedule — one set, intervals
(30s, pause 10s) and (20s, pause 0s), rest 5s — completes at 60 ticks,
not at `calculateSessionDuration = 65`. -/
theorem C1_completes_after_scheduledTicks_witness :
    isComplete (tickIter [⟨[⟨30, 10⟩, ⟨20, 0⟩], 5⟩] 60
      (startTimer (initTimer [⟨[⟨30, 10⟩, ⟨20, 0⟩], 5⟩]))) = true :=
  (C1_completes_after_scheduledTicks [⟨[⟨30, 10⟩, ⟨20, 0⟩], 5⟩] (by decide) 60).mpr
    (by decide)

/-- C1 counterexample: with a positive `restAfter` on the (only) set,
the engine is already Complete after 1 tick although the claim's
`N = calculateSessionDuration` is 2 — an earlier tick count reaches
Complete, refuting the claim as stated. -/
theorem C1_completes_after_scheduledTicks_counterexample :
    isComplete (tickIter [⟨[⟨1, 0⟩], 1⟩] 1
      (startTimer (initTimer [⟨[⟨1, 0⟩], 1⟩]))) = true ∧
    1 < calculateSessionDuration [⟨[⟨1, 0⟩], 1⟩] := by
  decide

/-! ## C2 — phase mutual exclusion and the terminal state -/

/-- C2 (amended): on every reachable state at most one of the pause and
rest phases is active (`isInPause` and `isInRest` are never both set,
so together with the active countdown at most one of the three is
active), and every reachable stopped state with `timeRemaining = 0` has
`isInRest = false`.  The original claim's further requirement that the
terminal Complete state has `isInPause = false` is false: completing
through the final interval's trailing pause leaves `isInPause = true`
(see the counterexample). -/
theorem C2_phase_mutual_exclusion (sets : List WorkoutSet) (t : Timer)
    (h : Reachable sets t) :
    ¬(t.isInPause = true ∧ t.isInRest = true) ∧
    (t.isRunning = false → t.timeRemaining = 0 → t.isInRest = false) := by
  have hw := WInv_reachable h
  exact ⟨hw.mutex, fun h1 _ => hw.doneNoRest h1⟩

/-- C2 witness: the invariant instantiated at a concrete reachable
state. -/
theorem C2_phase_mutual_exclusion_witness :
    ¬((initTimer [⟨[⟨1, 1⟩], 0⟩]).isInPause = true ∧
      (initTimer [⟨[⟨1, 1⟩], 0⟩]).isInRest = true) :=
  (C2_phase_mutual_exclusion [⟨[⟨1, 1⟩], 0⟩] (initTimer [⟨[⟨1, 1⟩], 0⟩])
    Reachable.init).1

/-- C2 counterexample: for the one-interval schedule with a trailing
pause the run completes through the Pause phase, and the reached
terminal state (`isRunning = false`, `timeRemaining = 0`) still has
`isInPause = true` — the claim's terminal-state property fails. -/
theorem C2_phase_mutual_exclusion_counterexample :
    Reachable [⟨[⟨1, 1⟩], 0⟩]
      (tick [⟨[⟨1, 1⟩], 0⟩]
        (tick [⟨[⟨1, 1⟩], 0⟩] (startTimer (initTimer [⟨[⟨1, 1⟩], 0⟩])))) ∧
    (tick [⟨[⟨1, 1⟩], 0⟩]
        (tick [⟨[⟨1, 1⟩], 0⟩] (startTimer (initTimer [⟨[⟨1, 1⟩], 0⟩])))).isRunning
      = false ∧
    (tick [⟨[⟨1, 1⟩], 0⟩]
        (tick [⟨[⟨1, 1⟩], 0⟩] (startTimer (initTimer [⟨[⟨1, 1⟩], 0⟩])))).timeRemaining
      = 0 ∧
    (tick [⟨[⟨1, 1⟩], 0⟩]
        (tick [⟨[⟨1, 1⟩], 0⟩] (startTimer (initTimer [⟨[⟨1, 1⟩], 0⟩])))).isInPause
      = true :=
  ⟨Reachable.step (Reachable.step (Reachable.start Reachable.init)),
    by decide, by decide, by decide⟩

/-! ## C6 — zero-length phases are never observably entered -/

/-- C6: on every reachable state, `isInPause = true` implies the
configured `pauseAfter` of the interval the timer points at is
positive, and `isInRest = true` implies the configured `restAfter` of
the previous set is positive — a zero-length Pause or Rest phase is
never observably entered. -/
theorem C6_no_zero_length_phase (sets : List WorkoutSet) (t : Timer)
    (h : Reachable sets t) :
    (t.isInPause = true →
      ∃ iv, getCurrentInterval sets t = some iv ∧ 1 ≤ iv.pauseAfter) ∧
    (t.isInRest = true →
      ∃ ps, sets.get? (t.currentSetIndex - 1) = some ps ∧ 1 ≤ ps.restAfter) := by
  have hw := WInv_reachable h
  exact ⟨hw.pauseCfg, fun h1 => (hw.restCfg h1).2⟩

/-- C6 witness: the pause state reached after the first interval of a
concrete schedule carries a positive configured pause. -/
theorem C6_no_zero_length_phase_witness :
    ∃ iv,
      getCurrentInterval [⟨[⟨1, 2⟩], 0⟩]
          (tick [⟨[⟨1, 2⟩], 0⟩] (startTimer (initTimer [⟨[⟨1, 2⟩], 0⟩]))) = some iv ∧
      1 ≤ iv.pauseAfter :=
  (C6_no_zero_length_phase [⟨[⟨1, 2⟩], 0⟩]
      (tick [⟨[⟨1, 2⟩], 0⟩] (startTimer (initTimer [⟨[⟨1, 2⟩], 0⟩])))
      (Reachable.step (Reachable.start Reachable.init))).1 (by decide)

/-! ## C7 — pause is pure suspension -/

/-- C7: from any running, un-paused timer state, calling `pauseTimer`,
letting the driver fire any number of ticks, and calling `resumeTimer`
restores the exact pre-pause state — every field (`timeRemaining`,
`pauseTimeRemaining`, `restTimeRemaining`, `currentSetIndex`,
`currentIntervalIndex`, `isInPause`, `isInRest`, ...) is as it was at
the moment of pausing, so ticks while paused consume no schedule
time. -/
theorem C7_pause_is_pure_suspension (sets : List WorkoutSet) (t : Timer)
    (hrun : t.isRunning = true) (hnp : t.isPaused = false) (k : Nat) :
    resumeTimer (tickIter sets k (pauseTimer t)) = t := by
  obtain ⟨csi, cii, run, pau, tr, ip, ptr, ir, rtr⟩ := t
  cases hrun
  cases hnp
  have hp : pauseTimer ⟨csi, cii, true, false, tr, ip, ptr, ir, rtr⟩ =
      ⟨csi, cii, true, true, tr, ip, ptr, ir, rtr⟩ := rfl
  rw [hp, tickIter_of_paused sets rfl k]
  rfl

/-- C7 witness: a concrete instance of the pause/tick/resume round
trip. -/
theorem C7_pause_is_pure_suspension_witness :
    resumeTimer (tickIter [⟨[⟨2, 1⟩], 0⟩] 3
        (pauseTimer (startTimer (initTimer [⟨[⟨2, 1⟩], 0⟩])))) =
      startTimer (initTimer [⟨[⟨2, 1⟩], 0⟩]) :=
  C7_pause_is_pure_suspension [⟨[⟨2, 1⟩], 0⟩] _ rfl rfl 3

/-! ## C8 — audio synchronization decision -/

/-- C8 (amended): for any timer state with `isInRest = true` the
synchronization step issues PAUSE regardless of `isRunning`/`isPaused`
(and of any audio error); for a running, un-paused state outside pause
and rest the step issues PLAY **provided no audio error is set** — the
decision is a function of the timer state and the audio-error state,
not of the timer state alone. -/
theorem C8_sync_decision (t : Timer) (e : Option String) :
    (t.isInRest = true → syncAudioAction (some t) e = AudioAction.pause) ∧
    (t.isRunning = true → t.isPaused = false → t.isInPause = false →
      t.isInRest = false → e = none → syncAudioAction (some t) e = AudioAction.play) := by
  obtain ⟨csi, cii, run, pau, tr, ip, ptr, ir, rtr⟩ := t
  constructor
  · intro hr
    cases hr
    cases run <;> cases pau <;> simp [syncAudioAction]
  · intro h1 h2 h3 h4 h5
    cases h1
    cases h2
    cases h3
    cases h4
    cases h5
    simp [syncAudioAction]

/-- C8 witness: the PLAY branch at a concrete running state with no
audio error. -/
theorem C8_sync_decision_witness :
    syncAudioAction (some ⟨0, 0, true, false, 5, false, 0, false, 0⟩) none =
      AudioAction.play :=
  (C8_sync_decision ⟨0, 0, true, false, 5, false, 0, false, 0⟩ none).2 rfl rfl rfl rfl rfl

/-- C8 counterexample: in a running, un-paused state outside pause and
rest — exactly the state the claim says always yields PLAY — a set
audio error makes the synchronization step issue no play command, so
the decision is not a function of the timer state alone. -/
theorem C8_sync_decision_counterexample :
    (⟨0, 0, true, false, 5, false, 0, false, 0⟩ : Timer).isRunning = true ∧
    (⟨0, 0, true, false, 5, false, 0, false, 0⟩ : Timer).isPaused = false ∧
    (⟨0, 0, true, false, 5, false, 0, false, 0⟩ : Timer).isInPause = false ∧
    (⟨0, 0, true, false, 5, false, 0, false, 0⟩ : Timer).isInRest = false ∧
    syncAudioAction (some ⟨0, 0, true, false, 5, false, 0, false, 0⟩)
        (some "decode error") ≠ AudioAction.play := by
  decide

/-! ## C9 — per-set narration resolution -/

/-- C9: the resolver returns the silent placeholder for an empty track
list, and otherwise the entry at `min(setIndex, length - 1)` — in
particular, for a two-element list queried for sets 0, 1 and 2 it
returns track 0, track 1 and track 1 again. -/
theorem C9_resolver_clamps (urls : List String) (i : Nat) :
    (urls ≠ [] →
      getUrlForSet urls i = urls.getD (min i (urls.length - 1)) getSilentAudioUrl) ∧
    getUrlForSet [] i = getSilentAudioUrl ∧
    (getUrlForSet ["track0", "track1"] 0 = "track0" ∧
      getUrlForSet ["track0", "track1"] 1 = "track1" ∧
      getUrlForSet ["track0", "track1"] 2 = "track1") := by
  refine ⟨?_, rfl, by decide⟩
  intro h
  match urls with
  | [] => exact absurd rfl h
  | [u] => simp [getUrlForSet]
  | u :: v :: rest =>
    unfold getUrlForSet
    rw [if_neg (by simp), if_neg (by simp)]

/-- C9 witness: a concrete clamped lookup past the end of the list. -/
theorem C9_resolver_clamps_witness :
    getUrlForSet ["track0", "track1"] 2 =
      (["track0", "track1"] : List String).getD (min 2 1) getSilentAudioUrl :=
  (C9_resolver_clamps ["track0", "track1"] 2).1 (by decide)

/-! ## C10 — display queries are total over the absent session -/

/-- C10: with a `null` timer `formatTimeRemaining` returns `"00:00"`,
and with a `null` timer or a `null` session both `getProgress` and
`getSessionProgress` return `0`; all three queries are total. -/
theorem C10_null_safe_queries :
    formatTimeRemaining none = "00:00" ∧
    (∀ s : Option StorySession, getProgress none s = 0 ∧ getSessionProgress none s = 0) ∧
    (∀ t : Timer, getProgress (some t) none = 0 ∧ getSessionProgress (some t) none = 0) := by
  refine ⟨rfl, fun s => ⟨?_, ?_⟩, fun t => ⟨rfl, rfl⟩⟩ <;> cases s <;> rfl

/-! ## C5 — malformed schedules are not rejected -/

/-- C5 counterexample: constructing a timer from the empty schedule is
not rejected — the initialization effect returns a timer with the
default `timeRemaining = 60`, and `startTimer` happily starts it. -/
theorem C5_counterexample :
    (initTimer []).isRunning = false ∧
    (initTimer []).timeRemaining = 60 ∧
    (startTimer (initTimer [])).isRunning = true := by
  decide

/-- C5 (amended): timer construction performs no validation.  For any
malformed schedule in which `sets[0]?.intervals[0]` is undefined (empty
sets list, or a first set with zero intervals) the initialization
effect produces a well-formed, un-started timer with the fallback
`timeRemaining = 60`, and that timer is startable; the only
set-non-emptiness validation in the sources lives in the setup form's
submit handler, not at timer construction. -/
theorem C5_no_construction_validation (sets : List WorkoutSet)
    (h : (sets.get? 0).bind (fun s => s.intervals.get? 0) = none) :
    (initTimer sets).isRunning = false ∧
    (initTimer sets).timeRemaining = 60 ∧
    (startTimer (initTimer sets)).isRunning = true := by
  simp only [List.get?_eq_getElem?] at h
  simp [initTimer, startTimer, h]

/-- C5 witness: a schedule whose first set has zero intervals. -/
theorem C5_no_construction_validation_witness :
    (initTimer [⟨[], 30⟩]).timeRemaining = 60 :=
  (C5_no_construction_validation [⟨[], 30⟩] rfl).2.1

/-! ## Evaluating `getProgress` per phase -/

theorem getProgress_active {w : List WorkoutSet} {t : Timer} {s : WorkoutSet}
    {v : IntervalItem} (hir : t.isInRest = false) (hip : t.isInPause = false)
    (hcs : w.get? t.currentSetIndex = some s)
    (hciv : s.intervals.get? t.currentIntervalIndex = some v) :
    getProgress (some t) (some ⟨w⟩) =
      if v.duration = 0 then 0
      else ((v.duration : ℚ) - t.timeRemaining) / v.duration * 100 := by
  unfold getProgress
  simp only [hir, hip, hcs, hciv, Bool.false_eq_true, if_false]

theorem getProgress_pause {sets : List WorkoutSet} {t : Timer} {s : WorkoutSet}
    {iv : IntervalItem} (hir : t.isInRest = false) (hip : t.isInPause = true)
    (hcs : sets.get? t.currentSetIndex = some s)
    (hciv : s.intervals.get? t.currentIntervalIndex = some iv) :
    getProgress (some t) (some ⟨sets⟩) =
      if iv.pauseAfter = 0 then 0
      else ((iv.pauseAfter : ℚ) - t.pauseTimeRemaining) / iv.pauseAfter * 100 := by
  unfold getProgress
  simp only [hir, hip, hcs, hciv, Bool.false_eq_true, if_false, if_true]

theorem getProgress_rest {sets : List WorkoutSet} {t : Timer} {ps : WorkoutSet}
    (hir : t.isInRest = true)
    (hps : sets.get? (t.currentSetIndex - 1) = some ps) :
    getProgress (some t) (some ⟨sets⟩) =
      if ps.restAfter = 0 then 0
      else ((ps.restAfter : ℚ) - t.restTimeRemaining) / ps.restAfter * 100 := by
  unfold getProgress
  simp only [hir, hps, if_true]

/-! ## Rational bounds for the percentage formula -/

theorem progressFrac_nonneg {D r : Nat} (hr : r ≤ D) :
    0 ≤ ((D : ℚ) - r) / D * 100 := by
  have h1 : (r : ℚ) ≤ D := by exact_mod_cast hr
  have h2 : (0 : ℚ) ≤ D := by positivity
  apply mul_nonneg (div_nonneg (by linarith) h2) (by norm_num)

theorem progressFrac_le_100 {D r : Nat} : ((D : ℚ) - r) / D * 100 ≤ 100 := by
  rcases Nat.eq_zero_or_pos D with hD | hD
  · subst hD
    norm_num
  · have hD' : (0 : ℚ) < D := by exact_mod_cast hD
    have hr0 : (0 : ℚ) ≤ r := by positivity
    have h1 : ((D : ℚ) - r) / D ≤ 1 := by
      rw [div_le_one hD']
      linarith
    calc ((D : ℚ) - r) / D * 100 ≤ 1 * 100 :=
          mul_le_mul_of_nonneg_right h1 (by norm_num)
    _ = 100 := by norm_num

theorem progressFrac_mono {D r r' : Nat} (h : r' ≤ r) :
    ((D : ℚ) - r) / D * 100 ≤ ((D : ℚ) - r') / D * 100 := by
  rcases Nat.eq_zero_or_pos D with hD | hD
  · subst hD
    norm_num
  · have hD' : (0 : ℚ) < D := by exact_mod_cast hD
    have h1 : (r' : ℚ) ≤ r := by exact_mod_cast h
    apply mul_le_mul_of_nonneg_right _ (by norm_num)
    rw [div_le_div_iff_of_pos_right hD']
    linarith

/-! ## Phase progress: bounds and in-phase monotonicity -/

theorem InvRun_progress_bounds {sets : List WorkoutSet} {t : Timer}
    (h : InvRun sets t) :
    0 ≤ getProgress (some t) (some ⟨sets⟩) ∧
      getProgress (some t) (some ⟨sets⟩) ≤ 100 := by
  obtain ⟨hrun, hpau, hset, ⟨iv, hgi⟩, hmut, halb, haub, hpb, hrs, hrb, hrst⟩ := h
  obtain ⟨s, hcs, hciv⟩ := getCurrentInterval_inv hgi
  by_cases hir : t.isInRest = true
  · obtain ⟨ps, hps, h1, h2⟩ := hrb hir
    rw [getProgress_rest hir hps, if_neg (by omega)]
    exact ⟨progressFrac_nonneg h2, progressFrac_le_100⟩
  · rw [Bool.not_eq_true] at hir
    by_cases hip : t.isInPause = true
    · obtain ⟨h1, h2⟩ := hpb hip iv hgi
      rw [getProgress_pause hir hip hcs hciv, if_neg (by omega)]
      exact ⟨progressFrac_nonneg h2, progressFrac_le_100⟩
    · rw [Bool.not_eq_true] at hip
      have h1 := halb hip hir
      have h2 := haub hip hir iv hgi
      rw [getProgress_active hir hip hcs hciv, if_neg (by omega)]
      exact ⟨progressFrac_nonneg h2, progressFrac_le_100⟩

theorem getProgress_tick_mono {sets : List WorkoutSet} {t : Timer}
    (hv : ValidSchedule sets) (h : InvRun sets t)
    (hsp : samePhaseStep t (tick sets t)) :
    getProgress (some t) (some ⟨sets⟩) ≤
      getProgress (some (tick sets t)) (some ⟨sets⟩) := by
  obtain ⟨hrun, hpau, hset, ⟨iv, hgi⟩, hmut, halb, haub, hpb, hrs, hrb, hrst⟩ := h
  obtain ⟨s, hcs, hciv⟩ := getCurrentInterval_inv hgi
  obtain ⟨hspr, hspk, hsps, hspi⟩ := hsp
  by_cases hir : t.isInRest = true
  · have hip : t.isInPause = false := by
      cases hq : t.isInPause
      · rfl
      · exact absurd ⟨hq, hir⟩ hmut
    obtain ⟨ps, hps, h1, h2⟩ := hrb hir
    by_cases h0 : t.restTimeRemaining - 1 = 0
    · exfalso
      rw [tick_rest_exit sets hrun hpau hir h0] at hspk
      unfold phaseOf at hspk
      simp [hip, hir] at hspk
    · rw [tick_rest_cont sets hrun hpau hir h0]
      rw [getProgress_rest hir hps,
        getProgress_rest (t := { t with restTimeRemaining := t.restTimeRemaining - 1 })
          hir hps,
        if_neg (by omega), if_neg (by omega)]
      dsimp only
      exact progressFrac_mono (by omega)
  · rw [Bool.not_eq_true] at hir
    by_cases hip : t.isInPause = true
    · obtain ⟨h1, h2⟩ := hpb hip iv hgi
      by_cases h0 : t.pauseTimeRemaining - 1 = 0
      · exfalso
        obtain ⟨t', hmv⟩ := moveToNextInterval_total hv hcs
        rw [tick_pause_move sets hrun hpau hir hip h0 hmv] at hspr hsps hspi
        obtain ⟨cs₂, hcs₂, hcase⟩ := moveToNextInterval_spec hmv
        rcases hcase with ⟨nxt, _, _, ht'⟩ | ⟨ns, fiv, _, _, _, _, ht'⟩ | ⟨_, _, ht'⟩
        · subst ht'
          dsimp only at hspi
          omega
        · subst ht'
          dsimp only at hsps
          omega
        · subst ht'
          exact nomatch hspr
      · rw [tick_pause_cont sets hrun hpau hir hip h0]
        rw [getProgress_pause hir hip hcs hciv,
          getProgress_pause (t := { t with pauseTimeRemaining := t.pauseTimeRemaining - 1 })
            hir hip hcs hciv,
          if_neg (by omega), if_neg (by omega)]
        dsimp only
        exact progressFrac_mono (by omega)
    · rw [Bool.not_eq_true] at hip
      have h1 := halb hip hir
      have h2 := haub hip hir iv hgi
      by_cases h0 : t.timeRemaining - 1 = 0
      · exfalso
        by_cases hpa : 0 < iv.pauseAfter
        · rw [tick_active_enterPause sets hrun hpau hir hip h0 hgi hpa] at hspk
          unfold phaseOf at hspk
          simp [hip, hir] at hspk
        · obtain ⟨t', hmv⟩ := moveToNextInterval_total hv hcs
          rw [tick_active_move sets hrun hpau hir hip h0 hgi hpa hmv] at hspr hsps hspi
          obtain ⟨cs₂, hcs₂, hcase⟩ := moveToNextInterval_spec hmv
          rcases hcase with ⟨nxt, _, _, ht'⟩ | ⟨ns, fiv, _, _, _, _, ht'⟩ | ⟨_, _, ht'⟩
          · subst ht'
            dsimp only at hspi
            omega
          · subst ht'
            dsimp only at hsps
            omega
          · subst ht'
            exact nomatch hspr
      · rw [tick_active_cont sets hrun hpau hir hip h0]
        rw [getProgress_active hir hip hcs hciv,
          getProgress_active (t := { t with timeRemaining := t.timeRemaining - 1 })
            hir hip hcs hciv,
          if_neg (by omega), if_neg (by omega)]
        dsimp only
        exact progressFrac_mono (by omega)

/-! ## C4 — per-phase progress -/

/-- C4 (amended): on every running invariant state of a valid schedule
`getProgress` stays within `[0, 100]`, is `0` at phase entry (remaining
counter equals the configured duration), is monotonically
non-decreasing across ticks that stay inside the same phase instance,
and returns `0` whenever the active phase's configured duration is `0`.
The original claim's "returns 100 in the last observable state before
the phase's terminal tick" is false: that state shows
`(D − 1)/D × 100 < 100` for a phase of configured duration `D` (the
counter never reaches `0` observably inside the phase); see the
counterexample. -/
theorem C4_phase_progress (sets : List WorkoutSet) (t : Timer)
    (hv : ValidSchedule sets) (h : InvRun sets t) :
    (0 ≤ getProgress (some t) (some ⟨sets⟩) ∧
      getProgress (some t) (some ⟨sets⟩) ≤ 100) ∧
    (t.isInPause = false → t.isInRest = false →
      (∀ iv, getCurrentInterval sets t = some iv → t.timeRemaining = iv.duration) →
      getProgress (some t) (some ⟨sets⟩) = 0) ∧
    (t.isInPause = true →
      (∀ iv, getCurrentInterval sets t = some iv →
        t.pauseTimeRemaining = iv.pauseAfter) →
      getProgress (some t) (some ⟨sets⟩) = 0) ∧
    (t.isInRest = true →
      (∀ ps, sets.get? (t.currentSetIndex - 1) = some ps →
        t.restTimeRemaining = ps.restAfter) →
      getProgress (some t) (some ⟨sets⟩) = 0) ∧
    (samePhaseStep t (tick sets t) →
      getProgress (some t) (some ⟨sets⟩) ≤
        getProgress (some (tick sets t)) (some ⟨sets⟩)) ∧
    (t.isInPause = false → t.isInRest = false → t.timeRemaining = 1 →
      ∀ iv, getCurrentInterval sets t = some iv →
        getProgress (some t) (some ⟨sets⟩) =
          ((iv.duration : ℚ) - 1) / iv.duration * 100) ∧
    (∀ t' : Timer, ∀ iv, t'.isInRest = false → t'.isInPause = false →
      getCurrentInterval sets t' = some iv → iv.duration = 0 →
      getProgress (some t') (some ⟨sets⟩) = 0) ∧
    (∀ t' : Timer, ∀ iv, t'.isInRest = false → t'.isInPause = true →
      getCurrentInterval sets t' = some iv → iv.pauseAfter = 0 →
      getProgress (some t') (some ⟨sets⟩) = 0) ∧
    (∀ t' : Timer, ∀ ps, t'.isInRest = true →
      sets.get? (t'.currentSetIndex - 1) = some ps → ps.restAfter = 0 →
      getProgress (some t') (some ⟨sets⟩) = 0) := by
  obtain ⟨s, hcs, hciv⟩ := getCurrentInterval_inv h.hiv.choose_spec
  have hgi : getCurrentInterval sets t = some h.hiv.choose := h.hiv.choose_spec
  refine ⟨InvRun_progress_bounds h, ?_, ?_, ?_, getProgress_tick_mono hv h, ?_, ?_, ?_, ?_⟩
  · intro hip hir hentry
    rw [getProgress_active hir hip hcs hciv]
    split_ifs with hd
    · rfl
    · rw [hentry _ (getCurrentInterval_mk hcs hciv)]
      simp
  · intro hip hentry
    have hir : t.isInRest = false := by
      cases hq : t.isInRest
      · rfl
      · exact absurd ⟨hip, hq⟩ h.mutex
    rw [getProgress_pause hir hip hcs hciv]
    split_ifs with hd
    · rfl
    · rw [hentry _ (getCurrentInterval_mk hcs hciv)]
      simp
  · intro hir hentry
    obtain ⟨ps, hps, _, _⟩ := h.rest_bounds hir
    rw [getProgress_rest hir hps]
    split_ifs with hd
    · rfl
    · rw [hentry ps hps]
      simp
  · intro hip hir h1 iv' hiv'
    rw [getProgress_active hir hip hcs hciv]
    rw [getCurrentInterval_mk hcs hciv] at hiv'
    injection hiv' with hiv'
    subst hiv'
    have hd := valid_duration hv hcs hciv
    rw [if_neg (by omega), h1]
    norm_num
  · intro t' iv' hir' hip' hgi' hd'
    obtain ⟨s', hcs', hciv'⟩ := getCurrentInterval_inv hgi'
    rw [getProgress_active hir' hip' hcs' hciv', if_pos hd']
  · intro t' iv' hir' hip' hgi' hp'
    obtain ⟨s', hcs', hciv'⟩ := getCurrentInterval_inv hgi'
    rw [getProgress_pause hir' hip' hcs' hciv', if_pos hp']
  · intro t' ps' hir' hps' hr'
    rw [getProgress_rest hir' hps', if_pos hr']

/-- C4 witness: bounds instantiated at the started initial state of a
concrete schedule. -/
theorem C4_phase_progress_witness :
    0 ≤ getProgress (some (startTimer (initTimer [⟨[⟨2, 0⟩], 0⟩])))
        (some ⟨[⟨[⟨2, 0⟩], 0⟩]⟩) ∧
    getProgress (some (startTimer (initTimer [⟨[⟨2, 0⟩], 0⟩])))
        (some ⟨[⟨[⟨2, 0⟩], 0⟩]⟩) ≤ 100 :=
  (C4_phase_progress [⟨[⟨2, 0⟩], 0⟩] (startTimer (initTimer [⟨[⟨2, 0⟩], 0⟩]))
    (by decide) (InvRun_start (by decide))).1

/-- C4 counterexample: for a single interval of duration 2, the state
one tick after start is the last observable state of the Active phase
(the next tick terminates it), yet `getProgress` is `50`, not `100`. -/
theorem C4_phase_progress_counterexample :
    getProgress (some (tickIter [⟨[⟨2, 0⟩], 0⟩] 1
        (startTimer (initTimer [⟨[⟨2, 0⟩], 0⟩])))) (some ⟨[⟨[⟨2, 0⟩], 0⟩]⟩) = 50 ∧
    (50 : ℚ) ≠ 100 ∧
    isComplete (tickIter [⟨[⟨2, 0⟩], 0⟩] 2
      (startTimer (initTimer [⟨[⟨2, 0⟩], 0⟩]))) = true := by
  have hstate : tickIter [⟨[⟨2, 0⟩], 0⟩] 1 (startTimer (initTimer [⟨[⟨2, 0⟩], 0⟩])) =
      ⟨0, 0, true, false, 1, false, 0, false, 0⟩ := by decide
  refine ⟨?_, by norm_num, by decide⟩
  rw [hstate, getProgress_active (w := [⟨[⟨2, 0⟩], 0⟩])
    (t := ⟨0, 0, true, false, 1, false, 0, false, 0⟩) (s := ⟨[⟨2, 0⟩], 0⟩)
    (v := ⟨2, 0⟩) rfl rfl rfl rfl, if_neg (by norm_num)]
  norm_num

/-! ## Generic facts about the indexed sums -/

theorem sumIvs_le {f g : Nat → IntervalItem → Int} :
    ∀ (i : Nat) (l : List IntervalItem),
      (∀ j iv, l.get? j = some iv → f (i + j) iv ≤ g (i + j) iv) →
      sumIvs f i l ≤ sumIvs g i l := by
  intro i l
  induction l generalizing i with
  | nil => intro _; exact Int.le_refl _
  | cons iv rest ih =>
    intro h
    have h0 := h 0 iv rfl
    rw [Nat.add_zero] at h0
    have hr := ih (i + 1) (fun j iv' hj => by
      have := h (j + 1) iv' hj
      rwa [show i + (j + 1) = i + 1 + j from by omega] at this)
    simp only [sumIvs]
    exact add_le_add h0 hr

theorem sumSets_le {f g : Nat → WorkoutSet → Int} :
    ∀ (i : Nat) (l : List WorkoutSet),
      (∀ j s, l.get? j = some s → f (i + j) s ≤ g (i + j) s) →
      sumSets f i l ≤ sumSets g i l := by
  intro i l
  induction l generalizing i with
  | nil => intro _; exact Int.le_refl _
  | cons s rest ih =>
    intro h
    have h0 := h 0 s rfl
    rw [Nat.add_zero] at h0
    have hr := ih (i + 1) (fun j s' hj => by
      have := h (j + 1) s' hj
      rwa [show i + (j + 1) = i + 1 + j from by omega] at this)
    simp only [sumSets]
    exact add_le_add h0 hr

theorem sumIvs_congrOn {f g : Nat → IntervalItem → Int} :
    ∀ (i : Nat) (l : List IntervalItem),
      (∀ j iv, l.get? j = some iv → f (i + j) iv = g (i + j) iv) →
      sumIvs f i l = sumIvs g i l := by
  intro i l
  induction l generalizing i with
  | nil => intro _; rfl
  | cons iv rest ih =>
    intro h
    have h0 := h 0 iv rfl
    rw [Nat.add_zero] at h0
    have hr := ih (i + 1) (fun j iv' hj => by
      have := h (j + 1) iv' hj
      rwa [show i + (j + 1) = i + 1 + j from by omega] at this)
    simp only [sumIvs]
    rw [h0, hr]

theorem sumSets_congrOn {f g : Nat → WorkoutSet → Int} :
    ∀ (i : Nat) (l : List WorkoutSet),
      (∀ j s, l.get? j = some s → f (i + j) s = g (i + j) s) →
      sumSets f i l = sumSets g i l := by
  intro i l
  induction l generalizing i with
  | nil => intro _; rfl
  | cons s rest ih =>
    intro h
    have h0 := h 0 s rfl
    rw [Nat.add_zero] at h0
    have hr := ih (i + 1) (fun j s' hj => by
      have := h (j + 1) s' hj
      rwa [show i + (j + 1) = i + 1 + j from by omega] at this)
    simp only [sumSets]
    rw [h0, hr]

theorem sumIvs_zero : ∀ (i : Nat) (l : List IntervalItem),
    sumIvs (fun _ _ => (0 : Int)) i l = 0 := by
  intro i l
  induction l generalizing i with
  | nil => rfl
  | cons iv rest ih => simp only [sumIvs, ih, Int.add_zero, Int.zero_add]

theorem sumSets_zero : ∀ (i : Nat) (l : List WorkoutSet),
    sumSets (fun _ _ => (0 : Int)) i l = 0 := by
  intro i l
  induction l generalizing i with
  | nil => rfl
  | cons s rest ih => simp only [sumSets, ih, Int.add_zero, Int.zero_add]

theorem sumIvs_full : ∀ (i : Nat) (l : List IntervalItem),
    sumIvs (fun _ iv => (iv.duration : Int) + (iv.pauseAfter : Int)) i l =
      (ivCostSum l : Int) := by
  intro i l
  induction l generalizing i with
  | nil => rfl
  | cons iv rest ih =>
    simp only [sumIvs, ivCostSum, ih]
    unfold ivCost
    push_cast
    ring

theorem sumSets_total : ∀ (i : Nat) (l : List WorkoutSet),
    sumSets (fun _ s => (ivCostSum s.intervals : Int) + (s.restAfter : Int)) i l =
      (sessionTotalRec l : Int) := by
  intro i l
  induction l generalizing i with
  | nil => rfl
  | cons s rest ih =>
    simp only [sumSets, sessionTotalRec, ih]
    push_cast
    ring

/-- Pointwise comparison of the elapsed contributions lifts to the
whole accumulated elapsed time. -/
theorem sessionElapsed_le {sets : List WorkoutSet} {t t' : Timer}
    (hIv : ∀ si s ii iv, sets.get? si = some s → s.intervals.get? ii = some iv →
      intervalElapsed t si ii iv ≤ intervalElapsed t' si ii iv)
    (hRest : ∀ si s, sets.get? si = some s → restElapsed t si s ≤ restElapsed t' si s) :
    sessionElapsed sets t ≤ sessionElapsed sets t' := by
  unfold sessionElapsed
  apply sumSets_le 0 sets
  intro j s hj
  have hj' : sets.get? (0 + j) = some s := by rwa [Nat.zero_add]
  refine add_le_add ?_ (hRest (0 + j) s hj')
  apply sumIvs_le 0 s.intervals
  intro j' iv hj''
  exact hIv (0 + j) s (0 + j') iv hj' (by rwa [Nat.zero_add])

/-- Evaluation of `getSessionProgress` on present arguments. -/
theorem getSessionProgress_eq (sets : List WorkoutSet) (t : Timer) :
    getSessionProgress (some t) (some ⟨sets⟩) =
      if 0 < calculateSessionDuration sets then
        ((sessionElapsed sets t : ℚ) / (calculateSessionDuration sets : ℚ)) * 100
      else 0 := rfl

/-- A valid schedule has positive total duration. -/
theorem calc_pos {sets : List WorkoutSet} (hv : ValidSchedule sets) :
    0 < calculateSessionDuration sets := by
  rw [calculateSessionDuration_eq, sessionTotalRec_eq_tailCost]
  have := tailCost_pos hv.2 hv.1
  omega

/-! ## Each tick can only increase the elapsed accounting -/

/-- Advancing across an interval boundary does not decrease any elapsed
contribution, provided the departed interval's own contribution is
bounded by its full cost. -/
theorem sessionElapsed_moveToNext_le {sets : List WorkoutSet} {t t' : Timer}
    {s : WorkoutSet} {iv : IntervalItem}
    (hcs : sets.get? t.currentSetIndex = some s)
    (hciv : s.intervals.get? t.currentIntervalIndex = some iv)
    (hcur : intervalElapsed t t.currentSetIndex t.currentIntervalIndex iv ≤
      (iv.duration : Int) + (iv.pauseAfter : Int))
    (hir : t.isInRest = false)
    (hmv : moveToNextInterval sets t = some t') :
    sessionElapsed sets t ≤ sessionElapsed sets t' := by
  obtain ⟨cs₂, hcs₂, hcase⟩ := moveToNextInterval_spec hmv
  rw [hcs] at hcs₂
  injection hcs₂ with hcs₂
  subst hcs₂
  rcases hcase with ⟨nxt, hlt, hnx, ht'⟩ | ⟨ns, fiv, hnlt, hslt, hns, hfi, ht'⟩ |
      ⟨hnlt, hnslt, ht'⟩
  · -- advance within the set
    subst ht'
    refine sessionElapsed_le ?_ (fun si s₂ _ => le_of_eq rfl)
    intro si s₂ ii iv₂ hsi hii
    by_cases hpos1 : si = t.currentSetIndex ∧ ii = t.currentIntervalIndex
    · obtain ⟨e1, e2⟩ := hpos1
      subst e1
      subst e2
      rw [hcs] at hsi
      injection hsi with hsi
      subst hsi
      rw [hciv] at hii
      injection hii with hii
      subst hii
      refine le_trans hcur (le_of_eq ?_)
      unfold intervalElapsed
      dsimp only
      rw [if_pos (by omega)]
    · by_cases hpos2 : si = t.currentSetIndex ∧ ii = t.currentIntervalIndex + 1
      · obtain ⟨e1, e2⟩ := hpos2
        subst e1
        subst e2
        rw [hcs] at hsi
        injection hsi with hsi
        subst hsi
        rw [hnx] at hii
        injection hii with hii
        subst hii
        unfold intervalElapsed
        dsimp only
        simp only [Bool.true_eq_false, Bool.false_eq_true, eq_self_iff_true,
          and_true, and_false, true_and, false_and, or_false, false_or, if_true,
          if_false]
        split_ifs <;> omega
      · unfold intervalElapsed
        dsimp only
        simp only [Bool.true_eq_false, Bool.false_eq_true, eq_self_iff_true,
          and_true, and_false, true_and, false_and, or_false, false_or, if_true,
          if_false]
        split_ifs <;> omega
  · -- advance to the next set
    subst ht'
    refine sessionElapsed_le ?_ ?_
    · intro si s₂ ii iv₂ hsi hii
      by_cases hpos1 : si = t.currentSetIndex ∧ ii = t.currentIntervalIndex
      · obtain ⟨e1, e2⟩ := hpos1
        subst e1
        subst e2
        rw [hcs] at hsi
        injection hsi with hsi
        subst hsi
        rw [hciv] at hii
        injection hii with hii
        subst hii
        refine le_trans hcur (le_of_eq ?_)
        unfold intervalElapsed
        dsimp only
        rw [if_pos (by omega)]
      · by_cases hpos2 : si = t.currentSetIndex + 1 ∧ ii = 0
        · obtain ⟨e1, e2⟩ := hpos2
          subst e1
          subst e2
          rw [hns] at hsi
          injection hsi with hsi
          subst hsi
          rw [hfi] at hii
          injection hii with hii
          subst hii
          unfold intervalElapsed
          dsimp only
          simp only [Bool.true_eq_false, Bool.false_eq_true, eq_self_iff_true,
            and_true, and_false, true_and, false_and, or_false, false_or, if_true,
            if_false]
          split_ifs <;> omega
        · unfold intervalElapsed
          dsimp only
          simp only [Bool.true_eq_false, Bool.false_eq_true, eq_self_iff_true,
            and_true, and_false, true_and, false_and, or_false, false_or, if_true,
            if_false]
          split_ifs <;> omega
    · intro si s₂ hsi
      by_cases hpos : si = t.currentSetIndex
      · subst hpos
        rw [hcs] at hsi
        injection hsi with hsi
        subst hsi
        unfold restElapsed
        dsimp only
        rw [hir]
        by_cases hra : 0 < s.restAfter
        · rw [decide_eq_true hra]
          simp only [Bool.true_eq_false, Bool.false_eq_true, eq_self_iff_true,
            and_true, and_false, true_and, false_and, or_false, false_or, if_true,
            if_false]
          split_ifs <;> omega
        · rw [decide_eq_false hra]
          simp only [Bool.true_eq_false, Bool.false_eq_true, eq_self_iff_true,
            and_true, and_false, true_and, false_and, or_false, false_or, if_true,
            if_false]
          split_ifs <;> omega
      · unfold restElapsed
        dsimp only
        rw [hir]
        by_cases hra : 0 < s.restAfter
        · rw [decide_eq_true hra]
          simp only [Bool.true_eq_false, Bool.false_eq_true, eq_self_iff_true,
            and_true, and_false, true_and, false_and, or_false, false_or, if_true,
            if_false]
          split_ifs <;> omega
        · rw [decide_eq_false hra]
          simp only [Bool.true_eq_false, Bool.false_eq_true, eq_self_iff_true,
            and_true, and_false, true_and, false_and, or_false, false_or, if_true,
            if_false]
          split_ifs <;> omega
  · -- completion
    subst ht'
    refine sessionElapsed_le ?_ (fun si s₂ _ => le_of_eq rfl)
    intro si s₂ ii iv₂ _ _
    unfold intervalElapsed
    dsimp only
    split_ifs <;> omega

/-- One tick of a running invariant state cannot decrease the elapsed
accounting of `getSessionProgress`. -/
theorem sessionElapsed_tick_mono {sets : List WorkoutSet} {t : Timer}
    (hv : ValidSchedule sets) (h : InvRun sets t) :
    sessionElapsed sets t ≤ sessionElapsed sets (tick sets t) := by
  obtain ⟨hrun, hpau, hset, ⟨iv, hgi⟩, hmut, halb, haub, hpb, hrs, hrb, hrst⟩ := h
  obtain ⟨s, hcs, hciv⟩ := getCurrentInterval_inv hgi
  by_cases hir : t.isInRest = true
  · have hip : t.isInPause = false := by
      cases hq : t.isInPause
      · rfl
      · exact absurd ⟨hq, hir⟩ hmut
    by_cases h0 : t.restTimeRemaining - 1 = 0
    · rw [tick_rest_exit sets hrun hpau hir h0]
      refine sessionElapsed_le (fun si s₂ ii iv₂ _ _ => le_of_eq rfl) ?_
      intro si s₂ _
      unfold restElapsed
      dsimp only
      rw [hir]
      simp only [Bool.true_eq_false, Bool.false_eq_true, eq_self_iff_true,
        and_true, and_false, true_and, false_and, or_false, false_or, if_true,
        if_false]
      split_ifs <;> omega
    · rw [tick_rest_cont sets hrun hpau hir h0]
      refine sessionElapsed_le (fun si s₂ ii iv₂ _ _ => le_of_eq rfl) ?_
      intro si s₂ _
      unfold restElapsed
      dsimp only
      rw [hir]
      simp only [Bool.true_eq_false, Bool.false_eq_true, eq_self_iff_true,
        and_true, and_false, true_and, false_and, or_false, false_or, if_true,
        if_false]
      split_ifs <;> omega
  · rw [Bool.not_eq_true] at hir
    by_cases hip : t.isInPause = true
    · have hpbs := hpb hip iv hgi
      by_cases h0 : t.pauseTimeRemaining - 1 = 0
      · obtain ⟨t', hmv⟩ := moveToNextInterval_total hv hcs
        rw [tick_pause_move sets hrun hpau hir hip h0 hmv]
        refine sessionElapsed_moveToNext_le hcs hciv ?_ hir hmv
        unfold intervalElapsed
        rw [hip]
        simp only [Bool.true_eq_false, Bool.false_eq_true, eq_self_iff_true,
          and_true, and_false, true_and, false_and, or_false, false_or, if_true,
          if_false]
        split_ifs <;> omega
      · rw [tick_pause_cont sets hrun hpau hir hip h0]
        refine sessionElapsed_le ?_ (fun si s₂ _ => le_of_eq rfl)
        intro si s₂ ii iv₂ _ _
        unfold intervalElapsed
        dsimp only
        rw [hip]
        simp only [Bool.true_eq_false, Bool.false_eq_true, eq_self_iff_true,
          and_true, and_false, true_and, false_and, or_false, false_or, if_true,
          if_false]
        split_ifs <;> omega
    · rw [Bool.not_eq_true] at hip
      have halb' := halb hip hir
      by_cases h0 : t.timeRemaining - 1 = 0
      · by_cases hpa : 0 < iv.pauseAfter
        · rw [tick_active_enterPause sets hrun hpau hir hip h0 hgi hpa]
          refine sessionElapsed_le ?_ (fun si s₂ _ => le_of_eq rfl)
          intro si s₂ ii iv₂ hsi hii
          by_cases hpos1 : si = t.currentSetIndex ∧ ii = t.currentIntervalIndex
          · obtain ⟨e1, e2⟩ := hpos1
            subst e1
            subst e2
            rw [hcs] at hsi
            injection hsi with hsi
            subst hsi
            rw [hciv] at hii
            injection hii with hii
            subst hii
            unfold intervalElapsed
            dsimp only
            rw [hip]
            simp only [Bool.true_eq_false, Bool.false_eq_true, eq_self_iff_true,
              and_true, and_false, true_and, false_and, or_false, false_or,
              if_true, if_false]
            split_ifs <;> omega
          · unfold intervalElapsed
            dsimp only
            rw [hip]
            simp only [Bool.true_eq_false, Bool.false_eq_true, eq_self_iff_true,
              and_true, and_false, true_and, false_and, or_false, false_or,
              if_true, if_false]
            split_ifs <;> omega
        · obtain ⟨t', hmv⟩ := moveToNextInterval_total hv hcs
          rw [tick_active_move sets hrun hpau hir hip h0 hgi hpa hmv]
          refine sessionElapsed_moveToNext_le hcs hciv ?_ hir hmv
          unfold intervalElapsed
          rw [hip]
          simp only [Bool.true_eq_false, Bool.false_eq_true, eq_self_iff_true,
            and_true, and_false, true_and, false_and, or_false, false_or, if_true,
            if_false]
          split_ifs <;> omega
      · rw [tick_active_cont sets hrun hpau hir hip h0]
        refine sessionElapsed_le ?_ (fun si s₂ _ => le_of_eq rfl)
        intro si s₂ ii iv₂ _ _
        unfold intervalElapsed
        dsimp only
        rw [hip]
        simp only [Bool.true_eq_false, Bool.false_eq_true, eq_self_iff_true,
          and_true, and_false, true_and, false_and, or_false, false_or, if_true,
          if_false]
        split_ifs <;> omega

/-! ## Elapsed accounting at the two ends of the run -/

/-- `startTimer` only touches `isRunning` and `isPaused`, neither of
which the elapsed accounting reads. -/
theorem sessionElapsed_startTimer (sets : List WorkoutSet) (t : Timer) :
    sessionElapsed sets (startTimer t) = sessionElapsed sets t := rfl

/-- The started initial state of a valid schedule has elapsed
accounting `0`: every contribution of `getSessionProgress`'s loop is
zero there. -/
theorem sessionElapsed_start_eq_zero {sets : List WorkoutSet} (hv : ValidSchedule sets) :
    sessionElapsed sets (startTimer (initTimer sets)) = 0 := by
  cases sets with
  | nil => exact absurd rfl hv.1
  | cons s₀ rest =>
    have hivne := (hv.2 s₀ (List.mem_cons_self _ _)).1
    cases hI : s₀.intervals with
    | nil => exact absurd hI hivne
    | cons iv₀ ivs =>
      have hiv0 : s₀.intervals.get? 0 = some iv₀ := by rw [hI]; rfl
      rw [init_start_eq hiv0]
      unfold sessionElapsed
      refine Eq.trans (sumSets_congrOn 0 (s₀ :: rest) ?_) (sumSets_zero 0 (s₀ :: rest))
      intro j s hj
      show sumIvs
          (intervalElapsed
            (⟨0, 0, true, false, iv₀.duration, false, iv₀.pauseAfter, false,
              s₀.restAfter⟩ : Timer) (0 + j)) 0 s.intervals +
          restElapsed
            (⟨0, 0, true, false, iv₀.duration, false, iv₀.pauseAfter, false,
              s₀.restAfter⟩ : Timer) (0 + j) s = 0
      have hIvZ : sumIvs
          (intervalElapsed
            (⟨0, 0, true, false, iv₀.duration, false, iv₀.pauseAfter, false,
              s₀.restAfter⟩ : Timer) (0 + j)) 0 s.intervals = 0 := by
        refine Eq.trans (sumIvs_congrOn 0 s.intervals ?_) (sumIvs_zero 0 s.intervals)
        intro j' iv hj'
        show intervalElapsed
            (⟨0, 0, true, false, iv₀.duration, false, iv₀.pauseAfter, false,
              s₀.restAfter⟩ : Timer) (0 + j) (0 + j') iv = 0
        by_cases hp : 0 + j = 0 ∧ 0 + j' = 0
        · obtain ⟨e1, e2⟩ := hp
          rw [show j = 0 from by omega] at hj
          rw [show j' = 0 from by omega] at hj'
          have hs0 : (s₀ :: rest).get? 0 = some s₀ := rfl
          rw [hs0] at hj
          injection hj with hj
          subst hj
          rw [hiv0] at hj'
          injection hj' with hj'
          subst hj'
          unfold intervalElapsed
          dsimp only
          rw [e1, e2, if_neg (by omega), if_pos ⟨rfl, rfl⟩]
          simp only [Bool.false_eq_true, if_false]
          omega
        · unfold intervalElapsed
          dsimp only
          rw [if_neg (by omega), if_neg (by omega)]
      have hRZ : restElapsed
          (⟨0, 0, true, false, iv₀.duration, false, iv₀.pauseAfter, false,
            s₀.restAfter⟩ : Timer) (0 + j) s = 0 := by
        unfold restElapsed
        dsimp only
        simp only [Bool.true_eq_false, Bool.false_eq_true, eq_self_iff_true,
          and_true, and_false, or_false, false_or, if_true, if_false]
        split_ifs <;> omega
      rw [hIvZ, hRZ]
      omega

/-- The un-started initial timer has elapsed accounting `0` too. -/
theorem sessionElapsed_init_eq_zero {sets : List WorkoutSet} (hv : ValidSchedule sets) :
    sessionElapsed sets (initTimer sets) = 0 := by
  rw [← sessionElapsed_startTimer]
  exact sessionElapsed_start_eq_zero hv

/-- Reading `lastRestAfter` off an indexed view of the last set. -/
theorem lastRestAfter_eq {sets : List WorkoutSet} {s : WorkoutSet}
    (h : sets.get? (sets.length - 1) = some s) : lastRestAfter sets = s.restAfter := by
  have h1 : sets.getLast? = some s := by rw [List.getLast?_eq_get?]; exact h
  simp only [lastRestAfter, h1]

/-- Reading `lastPauseAfter` off indexed views of the last set and its
last interval. -/
theorem lastPauseAfter_eq {sets : List WorkoutSet} {s : WorkoutSet} {iv : IntervalItem}
    (hs : sets.get? (sets.length - 1) = some s)
    (hiv : s.intervals.get? (s.intervals.length - 1) = some iv) :
    lastPauseAfter sets = iv.pauseAfter := by
  have h1 : sets.getLast? = some s := by rw [List.getLast?_eq_get?]; exact hs
  have h2 : s.intervals.getLast? = some iv := by rw [List.getLast?_eq_get?]; exact hiv
  simp only [lastPauseAfter, h1, h2]

/-- In the Complete state the elapsed accounting reaches the full
schedule total — but only when the final set carries no `restAfter`
and the final interval no `pauseAfter`: the positions at or past the
terminal coordinates contribute `0`, so those two configured seconds
would be missing from the sum. -/
theorem sessionElapsed_complete {sets : List WorkoutSet} {t : Timer}
    (hv : ValidSchedule sets) (hc : CompleteShape sets t)
    (hr0 : lastRestAfter sets = 0) (hp0 : lastPauseAfter sets = 0) :
    sessionElapsed sets t = (sessionTotalRec sets : Int) := by
  have hlen : 0 < sets.length := List.length_pos.2 hv.1
  obtain ⟨sL, hsL⟩ := exists_get?_of_lt (show sets.length - 1 < sets.length from by omega)
  have hcs : sets.get? t.currentSetIndex = some sL := by rw [hc.lastSet]; exact hsL
  have hciiL := hc.lastIv sL hcs
  have hivlen : 0 < sL.intervals.length :=
    List.length_pos.2 (hv.2 sL (List.get?_mem hsL)).1
  obtain ⟨ivL, hivL⟩ :=
    exists_get?_of_lt (show sL.intervals.length - 1 < sL.intervals.length from by omega)
  have hciv : sL.intervals.get? t.currentIntervalIndex = some ivL := by
    rw [hciiL]; exact hivL
  have hpaL : ivL.pauseAfter = 0 := by
    have := lastPauseAfter_eq hsL hivL
    omega
  have hraL : sL.restAfter = 0 := by
    have := lastRestAfter_eq hsL
    omega
  have hip : t.isInPause = false := by
    cases hq : t.isInPause
    · rfl
    · have := hc.pauseFlag hq ivL (getCurrentInterval_mk hcs hciv)
      omega
  have hcsiv := hc.lastSet
  have htz := hc.timeZero
  unfold sessionElapsed
  refine Eq.trans (sumSets_congrOn 0 sets ?_) (sumSets_total 0 sets)
  intro j s hj
  show sumIvs (intervalElapsed t (0 + j)) 0 s.intervals + restElapsed t (0 + j) s =
    (ivCostSum s.intervals : Int) + (s.restAfter : Int)
  have hjlt := get?_lt_length hj
  have hIv : sumIvs (intervalElapsed t (0 + j)) 0 s.intervals =
      (ivCostSum s.intervals : Int) := by
    refine Eq.trans (sumIvs_congrOn 0 s.intervals ?_) (sumIvs_full 0 s.intervals)
    intro j' iv hj'
    show intervalElapsed t (0 + j) (0 + j') iv =
      (iv.duration : Int) + (iv.pauseAfter : Int)
    have hj'lt := get?_lt_length hj'
    by_cases hbefore : 0 + j < t.currentSetIndex ∨
        (0 + j = t.currentSetIndex ∧ 0 + j' < t.currentIntervalIndex)
    · unfold intervalElapsed
      rw [if_pos hbefore]
    · have hjeq : 0 + j = t.currentSetIndex := by omega
      rw [show j = t.currentSetIndex from by omega] at hj
      rw [hcs] at hj
      injection hj with hj
      subst hj
      have hj'eq : 0 + j' = t.currentIntervalIndex := by omega
      rw [show j' = t.currentIntervalIndex from by omega] at hj'
      rw [hciv] at hj'
      injection hj' with hj'
      subst hj'
      unfold intervalElapsed
      rw [if_neg hbefore, if_pos ⟨hjeq, hj'eq⟩, hip]
      simp only [Bool.false_eq_true, if_false]
      omega
  have hR : restElapsed t (0 + j) s = (s.restAfter : Int) := by
    have hnr := hc.noRest
    unfold restElapsed
    rw [hnr]
    by_cases hb : ((0 + j : Nat) : Int) < (t.currentSetIndex : Int) - 1 ∨
        (((0 + j : Nat) : Int) = (t.currentSetIndex : Int) - 1 ∧ (false : Bool) = false)
    · rw [if_pos hb]
    · have hjeq : 0 + j = t.currentSetIndex := by
        simp only [eq_self_iff_true, and_true] at hb
        omega
      rw [if_neg hb, if_neg (by simp)]
      rw [show j = t.currentSetIndex from by omega] at hj
      rw [hcs] at hj
      injection hj with hj
      subst hj
      omega
  rw [hIv, hR]

/-! ## The percentage formula respects the elapsed ordering -/

theorem sessionProgress_le_of_elapsed_le {sets : List WorkoutSet} {t t' : Timer}
    (hpos : 0 < calculateSessionDuration sets)
    (h : sessionElapsed sets t ≤ sessionElapsed sets t') :
    getSessionProgress (some t) (some ⟨sets⟩) ≤ getSessionProgress (some t') (some ⟨sets⟩) := by
  rw [getSessionProgress_eq, getSessionProgress_eq, if_pos hpos, if_pos hpos]
  have hD : (0 : ℚ) < (calculateSessionDuration sets : ℚ) := by exact_mod_cast hpos
  have h1 : ((sessionElapsed sets t : Int) : ℚ) ≤ ((sessionElapsed sets t' : Int) : ℚ) := by
    exact_mod_cast h
  apply mul_le_mul_of_nonneg_right _ (by norm_num)
  rw [div_le_div_iff_of_pos_right hD]
  exact h1

/-- C3: For every valid schedule, `getSessionProgress` returns `0` on
the initial un-started timer and is monotonically non-decreasing along
the whole tick trajectory from `startTimer`; it reaches `100` from the
completion tick (`scheduledTicks`) onward provided the final set's
`restAfter` and the final interval's `pauseAfter` are both `0`.
Without that proviso the claim's `100` clause fails: the elapsed loop
never credits the final set's rest or the final second of a trailing
pause, so the percentage stalls short of `100` in the Complete state. -/
theorem C3_session_progress {sets : List WorkoutSet} (hv : ValidSchedule sets) :
    getSessionProgress (some (initTimer sets)) (some ⟨sets⟩) = 0 ∧
    (∀ k,
      getSessionProgress (some (tickIter sets k (startTimer (initTimer sets))))
          (some ⟨sets⟩) ≤
        getSessionProgress (some (tickIter sets (k + 1) (startTimer (initTimer sets))))
          (some ⟨sets⟩)) ∧
    (lastRestAfter sets = 0 → lastPauseAfter sets = 0 →
      ∀ k, scheduledTicks sets ≤ k →
        getSessionProgress (some (tickIter sets k (startTimer (initTimer sets))))
          (some ⟨sets⟩) = 100) := by
  have hpos := calc_pos hv
  have hstart := InvRun_start hv
  have hsl := stepsLeft_start hv
  have hcomp := tick_run_complete hv hstart
  rw [hsl] at hcomp
  have habs : ∀ k, tailCost sets ≤ k →
      tickIter sets k (startTimer (initTimer sets)) =
        tickIter sets (tailCost sets) (startTimer (initTimer sets)) := by
    intro k hk
    conv_lhs => rw [show k = tailCost sets + (k - tailCost sets) from by omega]
    rw [tickIter_add]
    exact tickIter_of_not_running sets hcomp.notRunning (k - tailCost sets)
  refine ⟨?_, ?_, ?_⟩
  · rw [getSessionProgress_eq, if_pos hpos, sessionElapsed_init_eq_zero hv]
    norm_num
  · intro k
    by_cases hk : k < tailCost sets
    · obtain ⟨hinv, _⟩ := tick_run_lt hv hstart k (by rw [hsl]; exact hk)
      have hstep := sessionElapsed_tick_mono hv hinv
      have hit : tickIter sets (k + 1) (startTimer (initTimer sets)) =
          tick sets (tickIter sets k (startTimer (initTimer sets))) := by
        rw [tickIter_add sets k 1]
        rfl
      rw [hit]
      exact sessionProgress_le_of_elapsed_le hpos hstep
    · rw [habs k (by omega), habs (k + 1) (by omega)]
  · intro hr0 hp0 k hk
    rw [scheduledTicks_eq_tailCost] at hk
    rw [habs k hk, getSessionProgress_eq, if_pos hpos,
      sessionElapsed_complete hv hcomp hr0 hp0, calculateSessionDuration_eq]
    have hpos' : 0 < sessionTotalRec sets := by
      rw [← calculateSessionDuration_eq]
      exact hpos
    have hne : ((sessionTotalRec sets : Nat) : ℚ) ≠ 0 := Nat.cast_ne_zero.2 (by omega)
    push_cast
    rw [div_self hne, one_mul]

/-- C3 witness: on the single-interval schedule `[{intervals := [{1, 0}],
restAfter := 0}]` the progress is `0` initially and `100` after the one
scheduled tick. -/
theorem C3_session_progress_witness :
    ValidSchedule [⟨[⟨1, 0⟩], 0⟩] ∧
    getSessionProgress (some (initTimer [⟨[⟨1, 0⟩], 0⟩])) (some ⟨[⟨[⟨1, 0⟩], 0⟩]⟩) = 0 ∧
    getSessionProgress
      (some (tickIter [⟨[⟨1, 0⟩], 0⟩] 1 (startTimer (initTimer [⟨[⟨1, 0⟩], 0⟩]))))
      (some ⟨[⟨[⟨1, 0⟩], 0⟩]⟩) = 100 := by
  have h := C3_session_progress (show ValidSchedule [⟨[⟨1, 0⟩], 0⟩] by decide)
  exact ⟨by decide, h.1, h.2.2 (by decide) (by decide) 1 (by decide)⟩

/-- C3 counterexample: a single interval of duration `1` with a trailing
`pauseAfter = 1` completes after its two scheduled ticks, yet
`getSessionProgress` reports `50` in the Complete state, not `100`: the
final pause second is never credited to the elapsed accumulator. -/
theorem C3_session_progress_counterexample :
    ∃ sets : List WorkoutSet, ValidSchedule sets ∧
      isComplete (tickIter sets (scheduledTicks sets) (startTimer (initTimer sets))) =
        true ∧
      getSessionProgress
        (some (tickIter sets (scheduledTicks sets) (startTimer (initTimer sets))))
        (some ⟨sets⟩) = 50 := by
  refine ⟨[⟨[⟨1, 1⟩], 0⟩], by decide, by decide, ?_⟩
  have hT : tickIter [⟨[⟨1, 1⟩], 0⟩] (scheduledTicks [⟨[⟨1, 1⟩], 0⟩])
      (startTimer (initTimer [⟨[⟨1, 1⟩], 0⟩])) =
      ⟨0, 0, false, false, 0, true, 1, false, 0⟩ := by decide
  have hE : sessionElapsed [⟨[⟨1, 1⟩], 0⟩]
      (⟨0, 0, false, false, 0, true, 1, false, 0⟩ : Timer) = 1 := by decide
  have hC : calculateSessionDuration [⟨[⟨1, 1⟩], 0⟩] = 2 := by decide
  rw [hT, getSessionProgress_eq, hE, hC, if_pos (by norm_num)]
  norm_num

/-! ## Sanity traces -/

example :
    let sets : List WorkoutSet := [⟨[⟨2, 1⟩], 0⟩]
    (tickIter sets 2 (startTimer (initTimer sets))).isInPause = true := by decide

example :
    let sets : List WorkoutSet := [⟨[⟨1, 0⟩], 1⟩]
    isComplete (tickIter sets 1 (startTimer (initTimer sets))) = true := by decide

example :
    let sets : List WorkoutSet := [⟨[⟨30, 10⟩, ⟨20, 0⟩], 5⟩]
    isComplete (tickIter sets 60 (startTimer (initTimer sets))) = true ∧
    isComplete (tickIter sets 59 (startTimer (initTimer sets))) = false := by decide

end StoryStride
